import Mathlib

/-!
Shallow embedding of `src/Promise.js` (musicode/mini-promise), a Promises/A+
style deferred-value library.  The JavaScript mutable object graph is rendered
as an explicit heap of promise records indexed by allocation order; the
`nextTick` scheduling primitive is rendered as a queue of deferred flush tasks;
user callbacks, executors and thenables are rendered as first-order syntax with
an interpreter, so that every run of the machine is computable.
Every definition follows the corresponding source function line by line.
-/

/-- Promise status, mirroring `STATUS_PENDING` / `STATUS_FULFILLED` /
`STATUS_REJECTED` in the source. -/
inductive Status where
  | pending
  | fulfilled
  | rejected
deriving DecidableEq, Repr

/-- JavaScript values relevant to the library.  A `promiseRef` is a reference
to a promise object in the heap.  A `thenable` is a non-promise object whose
callable `then` member, when invoked with the two guarded callbacks, performs
the listed actions in order: `(true, v)` calls the first (resolve) callback
with `v`, `(false, r)` calls the second (reject) callback with `r`.
A `thenableThrow e` is an object whose callable `then` raises `e` as soon as it
is invoked (before calling either callback).  `plainObj` is an object with no
callable `then`; `err` is an `Error` object. -/
inductive Val where
  | undef
  | num (n : Int)
  | str (s : String)
  | arr (elems : List Val)
  | err (msg : String)
  | plainObj
  | promiseRef (id : Nat)
  | thenable (acts : List (Bool × Val))
  | thenableThrow (e : Val)

/-- User-supplied `onFulfilled` / `onRejected` callback bodies: return a
constant, return the argument unchanged, or throw. -/
inductive UserFn where
  | ret (v : Val)
  | idf
  | thrw (e : Val)

/-- Evaluate a user callback on its argument: `.ok` is a normal return,
`.error` a raised exception. -/
def evalUser : UserFn → Val → Except Val Val
  | .ret v, _ => .ok v
  | .idf, arg => .ok arg
  | .thrw e, _ => .error e

/-- Callbacks that can be stored in a reaction record: a user callback, the
adoption closures `function (value) { return resolvePromise(source, value); }`
/ `function (reason) { return rejectPromise(source, reason); }` from
`adoptPromise`, and the two per-index closures created by `Promise.all`
(referencing the shared closure state by context id). -/
inductive Callback where
  | user (f : UserFn)
  | adopt (source : Nat) (isResolve : Bool)
  | allFul (ctx : Nat) (idx : Nat)
  | allRej (ctx : Nat) (idx : Nat)

/-- A reaction record pushed by `then`: `{ resolve: onFulfilled,
reject: onRejected, promise: result }`.  `none` models a non-function
argument (the source guards every use with `isFunction`). -/
structure Reaction where
  resolve : Option Callback
  reject : Option Callback
  promise : Nat

/-- One promise object: `status`, `value`, `reason`, `list`. -/
structure PromiseObj where
  status : Status
  value : Val
  reason : Val
  list : List Reaction

/-- The freshly initialised promise object (`me.status = STATUS_PENDING;
me.list = [];`). -/
def pendingObj : PromiseObj :=
  { status := .pending, value := .undef, reason := .undef, list := [] }

/-- Observable events: `ucall d v` records that a user callback belonging to
the reaction whose derived promise is `d` was invoked with argument `v`;
`ecall p` records that the executor of promise `p` was invoked. -/
inductive Event where
  | ucall (derived : Nat) (arg : Val)
  | ecall (p : Nat)

/-- The closure state shared by the callbacks of one `Promise.all` call:
`length`, `couter`, `values` and the captured `result` promise. -/
structure AllCtx where
  len : Nat
  counter : Nat
  values : Nat → Option Val
  result : Nat

/-- The machine state: the promise heap (`objs` below `next` are live),
the `Promise.all` closure states, the `nextTick` queue of promises waiting
for a deferred `flush`, and the event log. -/
structure Heap where
  objs : Nat → PromiseObj
  next : Nat
  ctxs : Nat → AllCtx
  ctxNext : Nat
  tasks : List Nat
  log : List Event

/-- The empty initial state. -/
def emptyHeap : Heap :=
  { objs := fun _ => pendingObj, next := 0,
    ctxs := fun _ => ⟨0, 0, fun _ => none, 0⟩, ctxNext := 0,
    tasks := [], log := [] }

/-- Read a promise object; ids at or above `next` were never allocated and
read as an inert pending object. -/
def getObj (h : Heap) (i : Nat) : PromiseObj :=
  if i < h.next then h.objs i else pendingObj

/-- Overwrite one promise object. -/
def setObj (h : Heap) (i : Nat) (o : PromiseObj) : Heap :=
  { h with objs := fun j => if j = i then o else h.objs j }

/-- Allocate a fresh promise object (the `new` allocation step). -/
def alloc (h : Heap) : Heap × Nat :=
  ({ h with objs := fun j => if j = h.next then pendingObj else h.objs j,
            next := h.next + 1 }, h.next)

/-- Append an event to the log. -/
def pushLog (h : Heap) (e : Event) : Heap :=
  { h with log := h.log ++ [e] }

/-- Enqueue a deferred `flush(me)` task (the `nextTick` call in `then`). -/
def pushTask (h : Heap) (p : Nat) : Heap :=
  { h with tasks := h.tasks ++ [p] }

/-- Replace a promise's reaction list (used by the `list.shift()` drain). -/
def setList (h : Heap) (p : Nat) (l : List Reaction) : Heap :=
  setObj h p { getObj h p with list := l }

/-- Read a `Promise.all` closure state. -/
def getCtx (h : Heap) (i : Nat) : AllCtx := h.ctxs i

/-- Overwrite a `Promise.all` closure state. -/
def setCtx (h : Heap) (i : Nat) (c : AllCtx) : Heap :=
  { h with ctxs := fun j => if j = i then c else h.ctxs j }

/-- Outcome of a heap-transforming call: normal return, a raised exception
(with the heap as mutated so far — JavaScript exceptions do not roll back
side effects), or fuel exhaustion of the model. -/
inductive Res where
  | ok (h : Heap)
  | thrown (e : Val) (h : Heap)
  | timeout (h : Heap)

/-- Outcome of invoking a stored callback: a returned value or a raised
exception. -/
inductive CbRes where
  | ok (h : Heap) (ret : Val)
  | thrown (e : Val) (h : Heap)
  | timeout (h : Heap)

/-- The heap carried by a `Res`, whatever the outcome. -/
def Res.heap : Res → Heap
  | .ok h => h
  | .thrown _ h => h
  | .timeout h => h

/-- The heap carried by a `CbRes`. -/
def CbRes.heap : CbRes → Heap
  | .ok h _ => h
  | .thrown _ h => h
  | .timeout h => h

/-- The message of the error thrown when a promise is resolved with itself
(`promise and value refer to the same object.`). -/
def selfResMsg : String := "promise and value refer to the same object."

/-- The self-resolution error value. -/
def selfError : Val := .err selfResMsg

/-- The message of the error thrown when the executor is not a function. -/
def invalidInitMsg : String := "Promise resolver executor is not a function."

/-- `rejectPromise(promise, reason)`: idempotent guard, then settle rejected.
Never throws. -/
def rejectPromise (h : Heap) (p : Nat) (r : Val) : Heap :=
  if (getObj h p).status ≠ .pending then h
  else setObj h p { getObj h p with status := .rejected, reason := r }

/-- The final `promise.status = STATUS_FULFILLED; promise.value = value;`
branch of `resolvePromise` (reached only when `!isProcessed`). -/
def setFulfilled (h : Heap) (p : Nat) (v : Val) : Heap :=
  setObj h p { getObj h p with status := .fulfilled, value := v }

/-- `Promise(noop)`: allocates a fresh pending promise and invokes the no-op
executor (logged as the executor invocation).  `then` and `Promise.all` use
this to create their result promises. -/
def newPromise (h : Heap) : Heap × Nat :=
  (pushLog (alloc h).1 (.ecall (alloc h).2), (alloc h).2)

/-- `proto.then(onFulfilled, onRejected)`: create the result promise, push the
reaction record, and when the receiver is already settled schedule a deferred
`flush` via `nextTick`.  Returns the derived promise. -/
def thenFn (h : Heap) (me : Nat) (onFul onRej : Option Callback) : Heap × Nat :=
  let h1 := (newPromise h).1
  let result := (newPromise h).2
  let obj := getObj h1 me
  let h2 := setObj h1 me { obj with list := obj.list ++ [⟨onFul, onRej, result⟩] }
  (if obj.status ≠ .pending then pushTask h2 me else h2, result)

/-- Choose `func`/`param` for one reaction record exactly as `flush` does:
`onFulfilled` when the parent fulfilled and it is a function, else
`onRejected` when the parent rejected and it is a function, else none
(pass-through adoption). -/
def selectCb (obj : PromiseObj) (item : Reaction) : Option (Callback × Val) :=
  match obj.status, item.resolve, item.reject with
  | .fulfilled, some cb, _ => some (cb, obj.value)
  | .rejected, _, some cb => some (cb, obj.reason)
  | _, _, _ => none

/-- Convert the shared `values` array of a `Promise.all` context to the value
passed to `resolvePromise(result, values)`; unassigned slots read as
`undefined` like holes of a sparse JavaScript array. -/
def ctxValues (c : AllCtx) : List Val :=
  (List.range c.len).map fun i => (c.values i).getD .undef

mutual

/-- `resolvePromise(promise, value)`: idempotent guard; self-resolution check
(which throws); promise adoption; thenable inspection with the two one-shot
guarded callbacks; otherwise settle fulfilled.  The first `Nat` argument is
step fuel of the model, consumed once per nested call. -/
def resolvePromise : Nat → Heap → Nat → Val → Res
  | 0, h, _, _ => .timeout h
  | fuel + 1, h, p, v =>
    if (getObj h p).status ≠ .pending then .ok h
    else match v with
      | .promiseRef target =>
        if target = p then .thrown selfError h
        else adoptPromise fuel h p target
      | .thenable acts =>
        -- `then` is callable: `isProcessed = true`, run `then.call(value, …)`.
        -- An exception escaping the call is caught; the `catch` only rejects
        -- when neither guarded callback has fired, and the resolve callback
        -- sets its flag before any code that can throw, so an escaped
        -- exception is always swallowed.
        (match runScript fuel h p false false acts with
          | .ok h' => .ok h'
          | .thrown _ h' => .ok h'
          | .timeout h' => .timeout h')
      | .thenableThrow e =>
        -- `then` is callable but raises before either callback fires:
        -- the `catch` rejects the promise with the raised value.
        .ok (rejectPromise h p e)
      | v =>
        -- plain value, or object whose `then` member is not callable:
        -- `isProcessed` stays false, settle fulfilled.
        .ok (setFulfilled h p v)
termination_by structural fuel _ _ _ => fuel

/-- `adoptPromise(source, target)`: register adoption callbacks on a pending
target via `target.then`, or immediately mirror a settled target. -/
def adoptPromise : Nat → Heap → Nat → Nat → Res
  | 0, h, _, _ => .timeout h
  | fuel + 1, h, source, target =>
    match (getObj h target).status with
    | .pending =>
      .ok (thenFn h target (some (.adopt source true)) (some (.adopt source false))).1
    | .fulfilled => resolvePromise fuel h source (getObj h target).value
    | .rejected => .ok (rejectPromise h source (getObj h target).reason)
termination_by structural fuel _ _ _ => fuel

/-- Run a thenable's `then` body: each action invokes one of the two guarded
callbacks, whose `isResolved` / `isRejected` flags make repeat invocations of
the same callback return immediately; each flag is set before the settlement
call it guards.  An exception raised by a settlement call propagates out of
the `then` body (aborting the remaining actions). -/
def runScript : Nat → Heap → Nat → Bool → Bool → List (Bool × Val) → Res
  | 0, h, _, _, _, _ => .timeout h
  | _ + 1, h, _, _, _, [] => .ok h
  | fuel + 1, h, p, isRes, isRej, (true, v) :: rest =>
    if isRes then runScript fuel h p isRes isRej rest
    else match resolvePromise fuel h p v with
      | .ok h' => runScript fuel h' p true isRej rest
      | .thrown e h' => .thrown e h'
      | .timeout h' => .timeout h'
  | fuel + 1, h, p, isRes, isRej, (false, r) :: rest =>
    if isRej then runScript fuel h p isRes isRej rest
    else runScript fuel (rejectPromise h p r) p isRes true rest
termination_by structural fuel _ _ _ _ _ => fuel

/-- Invoke a stored callback with its argument.  A user callback is logged and
evaluated; an adoption callback calls `resolvePromise` / `rejectPromise` on
its captured source and returns `undefined`; the `Promise.all` closures update
the shared context and settle-and-flush the aggregate result when appropriate,
returning `undefined`. -/
def runCb : Nat → Heap → Nat → Callback → Val → CbRes
  | 0, h, _, _, _ => .timeout h
  | _ + 1, h, derived, .user f, param =>
    let h1 := pushLog h (.ucall derived param)
    (match evalUser f param with
      | .ok v => .ok h1 v
      | .error e => .thrown e h1)
  | fuel + 1, h, _, .adopt source true, param =>
    (match resolvePromise fuel h source param with
      | .ok h' => .ok h' .undef
      | .thrown e h' => .thrown e h'
      | .timeout h' => .timeout h')
  | _ + 1, h, _, .adopt source false, param =>
    .ok (rejectPromise h source param) .undef
  | fuel + 1, h, _, .allFul cid idx, param =>
    let ctx := getCtx h cid
    let ctx' : AllCtx :=
      { ctx with values := fun j => if j = idx then some param else ctx.values j,
                 counter := ctx.counter + 1 }
    let h1 := setCtx h cid ctx'
    if ctx'.counter = ctx'.len then
      match resolvePromise fuel h1 ctx'.result (.arr (ctxValues ctx')) with
      | .ok h2 =>
        (match flush fuel h2 [ctx'.result] with
          | .ok h3 => .ok h3 .undef
          | .thrown e h3 => .thrown e h3
          | .timeout h3 => .timeout h3)
      | .thrown e h2 => .thrown e h2
      | .timeout h2 => .timeout h2
    else .ok h1 .undef
  | fuel + 1, h, _, .allRej cid _, param =>
    let ctx := getCtx h cid
    let h1 := rejectPromise h ctx.result param
    (match flush fuel h1 [ctx.result] with
      | .ok h2 => .ok h2 .undef
      | .thrown e h2 => .thrown e h2
      | .timeout h2 => .timeout h2)
termination_by structural fuel _ _ _ _ => fuel

/-- `flush(promise)`'s outer worklist loop `while (promise = promises.shift())`:
skip pending promises, drain settled ones. -/
def flush : Nat → Heap → List Nat → Res
  | 0, h, _ => .timeout h
  | _ + 1, h, [] => .ok h
  | fuel + 1, h, p :: rest =>
    if (getObj h p).status = .pending then flush fuel h rest
    else drain fuel h p rest
termination_by structural fuel _ _ => fuel

/-- `flush`'s inner loop `while (item = list.shift())`: pop one reaction
record, run the selected callback inside `try { resolvePromise(itemPromise,
func(param)) } catch (e) { rejectPromise(itemPromise, e) }`, or adopt the
parent when no callback applies (outside the `try`), then push the derived
promise onto the worklist. -/
def drain : Nat → Heap → Nat → List Nat → Res
  | 0, h, _, _ => .timeout h
  | fuel + 1, h, p, rest =>
    match (getObj h p).list with
    | [] => flush fuel h rest
    | item :: items =>
      let h1 := setList h p items
      match selectCb (getObj h1 p) item with
      | some (cb, param) =>
        (match runCb fuel h1 item.promise cb param with
          | .ok h2 ret =>
            (match resolvePromise fuel h2 item.promise ret with
              | .ok h3 => drain fuel h3 p (rest ++ [item.promise])
              | .thrown e h3 =>
                drain fuel (rejectPromise h3 item.promise e) p (rest ++ [item.promise])
              | .timeout h3 => .timeout h3)
          | .thrown e h2 =>
            drain fuel (rejectPromise h2 item.promise e) p (rest ++ [item.promise])
          | .timeout h2 => .timeout h2)
      | none =>
        (match adoptPromise fuel h1 item.promise p with
          | .ok h2 => drain fuel h2 p (rest ++ [item.promise])
          | .thrown e h2 => .thrown e h2
          | .timeout h2 => .timeout h2)
termination_by structural fuel _ _ _ => fuel

end

/-- The fulfilled-settlement callback handed to the executor:
`function (value) { resolvePromise(me, value); flush(me); }`.
An exception from `resolvePromise` propagates before `flush` runs. -/
def settleFulfilled (fuel : Nat) (h : Heap) (p : Nat) (v : Val) : Res :=
  match resolvePromise fuel h p v with
  | .ok h' => flush fuel h' [p]
  | r => r

/-- The rejected-settlement callback handed to the executor:
`function (reason) { rejectPromise(me, reason); flush(me); }`. -/
def settleRejected (fuel : Nat) (h : Heap) (p : Nat) (r : Val) : Res :=
  flush fuel (rejectPromise h p r) [p]

/-- Straight-line executor bodies: call the first settlement callback, call
the second settlement callback, or raise (which aborts the executor and
propagates out of the constructor). -/
inductive EAct where
  | callRes (v : Val)
  | callRej (r : Val)
  | raise (e : Val)

/-- Run an executor body against the two settlement callbacks of promise
`p`. -/
def runExec (fuel : Nat) (h : Heap) (p : Nat) : List EAct → Res
  | [] => .ok h
  | .callRes v :: rest =>
    (match settleFulfilled fuel h p v with
      | .ok h' => runExec fuel h' p rest
      | r => r)
  | .callRej r :: rest =>
    (match settleRejected fuel h p r with
      | .ok h' => runExec fuel h' p rest
      | res => res)
  | .raise e :: _ => .thrown e h

/-- The argument handed to the `Promise` constructor: either a non-function
value, or a function with the given body. -/
inductive ExecArg where
  | notFn (v : Val)
  | fn (acts : List EAct)

/-- Outcome of a constructor call: the heap plus the constructed promise's id
on success. -/
inductive PRes where
  | ok (h : Heap) (p : Nat)
  | thrown (e : Val) (h : Heap)
  | timeout (h : Heap)

/-- The heap carried by a `PRes`. -/
def PRes.heap : PRes → Heap
  | .ok h _ => h
  | .thrown _ h => h
  | .timeout h => h

/-- The body of `function Promise(executor)` run with receiver `me` (after the
`isPromise(me)` re-invocation check has passed): throw `InvalidInitializer`
when the executor is not a function, else initialise `status` / `list` and
invoke the executor synchronously, exactly once, with the two settlement
callbacks.  An exception raised by the executor propagates to the caller. -/
def promiseBody (fuel : Nat) (h : Heap) (me : Nat) (arg : ExecArg) : PRes :=
  match arg with
  | .notFn _ => .thrown (.err invalidInitMsg) h
  | .fn acts =>
    match runExec fuel (pushLog (setObj h me pendingObj) (.ecall me)) me acts with
    | .ok h3 => .ok h3 me
    | .thrown e h3 => .thrown e h3
    | .timeout h3 => .timeout h3

/-- `new Promise(executor)`: allocate the instance, then run the constructor
body with it as receiver. -/
def mkPromise (fuel : Nat) (h : Heap) (arg : ExecArg) : PRes :=
  promiseBody fuel (alloc h).1 (alloc h).2 arg

/-- The receiver of a call to `Promise`: `undefined` for a plain strict-mode
function call, or an instance for a `new` invocation. -/
inductive Recv where
  | undefRecv
  | inst (id : Nat)

/-- `isPromise(p)`, i.e. `p instanceof Promise`, applied to the receiver. -/
def isPromiseRecv : Recv → Bool
  | .undefRecv => false
  | .inst _ => true

/-- `function Promise(executor)` including the
`if (!isPromise(me)) return new Promise(executor)` re-invocation guard. -/
def promiseCall (fuel : Nat) (h : Heap) (recv : Recv) (arg : ExecArg) : PRes :=
  match recv with
  | .inst me => promiseBody fuel h me arg
  | .undefRecv => mkPromise fuel h arg

/-- The registration loop of `Promise.all`: for each input index, chain
`promises[index].then` with the two per-index closures. -/
def allLoop (h : Heap) (cid : Nat) : List Nat → Nat → Heap
  | [], _ => h
  | p :: rest, i =>
    allLoop (thenFn h p (some (.allFul cid i)) (some (.allRej cid i))).1 cid rest (i + 1)

/-- `Promise.all(promises)`: create the result promise and the shared closure
state (`length`, `couter`, `values`), then register the per-index callbacks on
every input.  Returns the result promise.  Registration alone never runs a
callback (settled inputs only enqueue `nextTick` flush tasks). -/
def promiseAll (h : Heap) (inputs : List Nat) : Heap × Nat :=
  let h1 := (newPromise h).1
  let result := (newPromise h).2
  let cid := h1.ctxNext
  let ctx : AllCtx :=
    { len := inputs.length, counter := 0, values := fun _ => none, result := result }
  let h2 := { h1 with ctxs := fun j => if j = cid then ctx else h1.ctxs j,
                      ctxNext := cid + 1 }
  (allLoop h2 cid inputs 0, result)

/-- Run the first queued `nextTick` task: `function () { flush(me); }`. -/
def runTick (fuel : Nat) (h : Heap) : Res :=
  match h.tasks with
  | [] => .ok h
  | t :: rest => flush fuel { h with tasks := rest } [t]

/-- The user-callback invocations recorded in a log. -/
def userEvents (l : List Event) : List Event :=
  l.filter fun e => match e with | .ucall _ _ => true | .ecall _ => false

/-- A heap holding `n` freshly constructed, still pending promises with ids
`0 … n-1` (each as if built by `new Promise` with an executor that has not yet
called either settlement callback). -/
def mkPending (n : Nat) : Heap :=
  { emptyHeap with next := n, log := (List.range n).map .ecall }

/-- One external settlement event for the scenario of `Promise.all`:
input index, payload, and whether the input's fulfilled-settlement callback
(`true`) or rejected-settlement callback (`false`) is invoked. -/
structure SettleEv where
  idx : Nat
  pay : Val
  isFul : Bool

/-- Run a sequence of external settlement events, each through the
corresponding constructor settlement callback followed by its synchronous
`flush` (each event receives the given fuel afresh; a raised exception or
fuel exhaustion aborts the sequence). -/
def runEvents (fuel : Nat) (h : Heap) : List SettleEv → Res
  | [] => .ok h
  | ev :: rest =>
    (match (if ev.isFul then settleFulfilled fuel h ev.idx ev.pay
            else settleRejected fuel h ev.idx ev.pay) with
      | .ok h' => runEvents fuel h' rest
      | r => r)

/-- Values that are neither a promise reference nor carry a callable (or
throwing) `then` member: resolving with such a value settles fulfilled
directly. -/
def isPlain : Val → Bool
  | .promiseRef _ => false
  | .thenable _ => false
  | .thenableThrow _ => false
  | _ => true

/-- The updated `Promise.all` closure state after `values[ index ] = value;
++couter` for one fulfilled input. -/
def allBump (h : Heap) (cid idx : Nat) (param : Val) : AllCtx :=
  { getCtx h cid with
    values := fun j => if j = idx then some param else (getCtx h cid).values j,
    counter := (getCtx h cid).counter + 1 }

/-- The settlement-relevant fields of one promise: status, value, reason. -/
def triple (h : Heap) (p : Nat) : Status × Val × Val :=
  ((getObj h p).status, (getObj h p).value, (getObj h p).reason)

/-- Relation between a heap and any heap a machine run can turn it into:
the allocation counter only grows, every already-settled promise keeps its
status/value/reason (write-once settlement), and the log only grows, with
executor-invocation events only for promises allocated after the start. -/
def Evolves (h h' : Heap) : Prop :=
  h.next ≤ h'.next ∧
  (∀ q, (getObj h q).status ≠ .pending → triple h' q = triple h q) ∧
  ∃ t, h'.log = h.log ++ t ∧ ∀ q, Event.ecall q ∈ t → h.next ≤ q

/-- Scenario for claim C1: a promise constructed with an executor that saves
its settlement callback for later (`new Promise(function (resolve) { … })`),
id `0`, still pending. -/
def c1Pend : Heap := (mkPromise 1 emptyHeap (.fn [])).heap

/-- Scenario for claim C1: one reaction registered via `then` on the pending
promise (derived promise id `1`). -/
def c1Reg : Heap := (thenFn c1Pend 0 (some (.user (.ret .undef))) none).1

/-- Scenario for claim C1: the saved fulfilled-settlement callback is invoked
with `1`. -/
def c1Run : Res := settleFulfilled 9 c1Reg 0 (.num 1)

/-- Scenario for claim C2: a pending promise, id `0`, whose settlement
callback was saved by its executor. -/
def c2Pend : Heap := (mkPromise 1 emptyHeap (.fn [])).heap

/-- Scenario for claim C2, flush path: promise `0` fulfilled with `1`, then
`then` registers an `onFulfilled` returning the reaction's own derived
promise (id `1`), which enqueues a deferred flush task. -/
def c2Chain : Heap :=
  (thenFn (mkPromise 2 emptyHeap (.fn [.callRes (.num 1)])).heap 0
    (some (.user (.ret (.promiseRef 1)))) none).1

/-- Scenario for claim C2, flush path: the deferred flush task runs. -/
def c2Tick : Res := runTick 9 c2Chain

/-- Scenario for claim C3: `Promise.all([])` run from the empty heap; the
result promise has id `0`. -/
def c3Run : Heap × Nat := promiseAll emptyHeap []

/-- Scenario for claims C5: a pending promise, id `0`. -/
def c5Pend : Heap := (mkPromise 1 emptyHeap (.fn [])).heap

/-- Scenario for claim C6: a promise, id `0`, already fulfilled with `1`. -/
def c6Base : Heap := (mkPromise 3 emptyHeap (.fn [.callRes (.num 1)])).heap

/-- A user callback whose outcome on a given argument is "plain": it either
throws, or returns a value that is neither a promise reference nor a
thenable. -/
def plainOn (f : UserFn) (v : Val) : Bool :=
  match evalUser f v with
  | .ok w => isPlain w
  | .error _ => true

/-- Scenario for claim C8 (fulfilled side): a pending promise, id `0`, with
three `then` registrations carrying user `onFulfilled` callbacks; the derived
promises get ids `1`, `2`, `3` in registration order. -/
def c8Setup (f0 f1 f2 : UserFn) (g0 g1 g2 : Option Callback) : Heap :=
  (thenFn (thenFn (thenFn (mkPromise 1 emptyHeap (.fn [])).heap 0
    (some (.user f0)) g0).1 0 (some (.user f1)) g1).1 0 (some (.user f2)) g2).1

/-- Scenario for claim C8 (rejected side): same, with the user callbacks in
`onRejected` position. -/
def c8SetupRej (f0 f1 f2 : UserFn) (g0 g1 g2 : Option Callback) : Heap :=
  (thenFn (thenFn (thenFn (mkPromise 1 emptyHeap (.fn [])).heap 0
    g0 (some (.user f0))).1 0 g1 (some (.user f1))).1 0 g2 (some (.user f2))).1

/-- Scenario for claim C9: a pending promise, id `0`, with two reactions: the
first `onFulfilled` throws, the second is an arbitrary user callback; derived
promises `1` and `2`. -/
def c9Setup (e : Val) (f1 : UserFn) : Heap :=
  (thenFn (thenFn (mkPromise 1 emptyHeap (.fn [])).heap 0
    (some (.user (.thrw e))) none).1 0 (some (.user f1)) none).1

/-- The input indices already settled by a list of external events. -/
def doneIdx (done : List SettleEv) : List Nat := done.map SettleEv.idx

/-- How many of the events fulfilled their input (the value `couter` has
reached). -/
def fulCount (done : List SettleEv) : Nat :=
  (done.filter fun ev => ev.isFul).length

/-- The fulfillment value recorded for input `i` by the events so far. -/
def lookupPay (done : List SettleEv) (i : Nat) : Option Val :=
  ((done.filter fun ev => ev.isFul).find? fun ev => ev.idx == i).map SettleEv.pay

/-- The first rejection reason among the events, if any. -/
def firstFail (done : List SettleEv) : Option Val :=
  (done.find? fun ev => !ev.isFul).map SettleEv.pay

/-- The aggregate value `Promise.all` assembles: one slot per input index, in
index order, holes reading as `undefined`. -/
def allValues (n : Nat) (done : List SettleEv) : Val :=
  .arr ((List.range n).map fun i => (lookupPay done i).getD .undef)

/-- What the `Promise.all` result promise (id `n`) must look like after the
events `done`: rejected with the first rejection reason if any input
rejected; fulfilled with the index-ordered values once all `n` inputs have
fulfilled; still pending otherwise. -/
def c4ResultSpec (n : Nat) (done : List SettleEv) (h : Heap) : Prop :=
  match firstFail done with
  | some r => (getObj h n).status = .rejected ∧ (getObj h n).reason = r
  | none =>
    if fulCount done = n then
      (getObj h n).status = .fulfilled ∧ (getObj h n).value = allValues n done
    else (getObj h n).status = .pending

/-- Invariant of the `Promise.all` scenario with `n` pending inputs
(ids `0 … n-1`), the result promise (id `n`) and one pass-through dummy
derived promise per registration (ids `n+1 … 2n`), after the external
settlement events `done` have been processed. -/
def C4Inv (n : Nat) (done : List SettleEv) (h : Heap) : Prop :=
  h.next = 2 * n + 1 ∧
  (getCtx h 0).len = n ∧
  (getCtx h 0).result = n ∧
  (getCtx h 0).counter = fulCount done ∧
  (∀ i, i < n → (getCtx h 0).values i = lookupPay done i) ∧
  (∀ i, i < n → i ∉ doneIdx done →
    getObj h i =
      { status := .pending, value := .undef, reason := .undef,
        list := [⟨some (.allFul 0 i), some (.allRej 0 i), n + 1 + i⟩] }) ∧
  (∀ i, i < n → i ∈ doneIdx done →
    (getObj h i).status ≠ .pending ∧ (getObj h i).list = []) ∧
  (∀ i, i < n → i ∉ doneIdx done → getObj h (n + 1 + i) = pendingObj) ∧
  (∀ i, i < n → i ∈ doneIdx done →
    (getObj h (n + 1 + i)).status ≠ .pending ∧
    (getObj h (n + 1 + i)).list = []) ∧
  (getObj h n).list = [] ∧
  c4ResultSpec n done h

def c4Ctx (n : Nat) : AllCtx :=
  { len := (List.range n).length, counter := 0, values := fun _ => none,
    result := n }

def c4Start (n : Nat) : Heap :=
  { objs := fun j => if j = n then pendingObj else pendingObj,
    next := n + 1,
    ctxs := fun j => if j = 0 then c4Ctx n else ⟨0, 0, fun _ => none, 0⟩,
    ctxNext := 1, tasks := [],
    log := (List.range n).map Event.ecall ++ [Event.ecall n] }

/-- Step equation of `resolvePromise` at positive fuel. -/
theorem resolvePromise_succ (n : Nat) (h : Heap) (p : Nat) (v : Val) :
    resolvePromise (n + 1) h p v =
      (if (getObj h p).status ≠ Status.pending then Res.ok h
       else
        match v with
        | Val.promiseRef target =>
          if target = p then Res.thrown selfError h else adoptPromise n h p target
        | Val.thenable acts =>
          (match runScript n h p false false acts with
           | Res.ok h' => Res.ok h'
           | Res.thrown _ h' => Res.ok h'
           | Res.timeout h' => Res.timeout h')
        | Val.thenableThrow e => Res.ok (rejectPromise h p e)
        | v => Res.ok (setFulfilled h p v)) := by
  rw [resolvePromise.eq_def]

/-- Step equation of `adoptPromise` at positive fuel. -/
theorem adoptPromise_succ (n : Nat) (h : Heap) (source target : Nat) :
    adoptPromise (n + 1) h source target =
      (match (getObj h target).status with
       | .pending =>
         .ok (thenFn h target (some (.adopt source true)) (some (.adopt source false))).1
       | .fulfilled => resolvePromise n h source (getObj h target).value
       | .rejected => .ok (rejectPromise h source (getObj h target).reason)) := by
  rw [adoptPromise.eq_def]

/-- Step equation of `runScript` on the empty action list. -/
theorem runScript_nil (n : Nat) (h : Heap) (p : Nat) (a b : Bool) :
    runScript (n + 1) h p a b [] = .ok h := by
  rw [runScript.eq_def]

/-- Step equation of `runScript` on a resolve-callback action. -/
theorem runScript_res (n : Nat) (h : Heap) (p : Nat) (a b : Bool) (v : Val)
    (rest : List (Bool × Val)) :
    runScript (n + 1) h p a b ((true, v) :: rest) =
      (if a then runScript n h p a b rest
       else match resolvePromise n h p v with
         | .ok h' => runScript n h' p true b rest
         | .thrown e h' => .thrown e h'
         | .timeout h' => .timeout h') := by
  rw [runScript.eq_def]

/-- Step equation of `runScript` on a reject-callback action. -/
theorem runScript_rej (n : Nat) (h : Heap) (p : Nat) (a b : Bool) (r : Val)
    (rest : List (Bool × Val)) :
    runScript (n + 1) h p a b ((false, r) :: rest) =
      (if b then runScript n h p a b rest
       else runScript n (rejectPromise h p r) p a true rest) := by
  rw [runScript.eq_def]

/-- Step equation of `runCb` on a user callback. -/
theorem runCb_user (n : Nat) (h : Heap) (d : Nat) (f : UserFn) (param : Val) :
    runCb (n + 1) h d (.user f) param =
      (match evalUser f param with
       | .ok v => .ok (pushLog h (.ucall d param)) v
       | .error e => .thrown e (pushLog h (.ucall d param))) := by
  rw [runCb.eq_def]

/-- Step equation of `runCb` on an adoption resolve callback. -/
theorem runCb_adoptRes (n : Nat) (h : Heap) (d : Nat) (source : Nat) (param : Val) :
    runCb (n + 1) h d (.adopt source true) param =
      (match resolvePromise n h source param with
       | .ok h' => .ok h' .undef
       | .thrown e h' => .thrown e h'
       | .timeout h' => .timeout h') := by
  rw [runCb.eq_def]

/-- Step equation of `runCb` on an adoption reject callback. -/
theorem runCb_adoptRej (n : Nat) (h : Heap) (d : Nat) (source : Nat) (param : Val) :
    runCb (n + 1) h d (.adopt source false) param =
      .ok (rejectPromise h source param) .undef := by
  rw [runCb.eq_def]

/-- Step equation of `runCb` on a `Promise.all` fulfilled callback. -/
theorem runCb_allFul (n : Nat) (h : Heap) (d : Nat) (cid idx : Nat) (param : Val) :
    runCb (n + 1) h d (.allFul cid idx) param =
      (if (getCtx h cid).counter + 1 = (getCtx h cid).len then
         match resolvePromise n (setCtx h cid (allBump h cid idx param))
             (getCtx h cid).result (.arr (ctxValues (allBump h cid idx param))) with
         | .ok h2 =>
           (match flush n h2 [(getCtx h cid).result] with
             | .ok h3 => .ok h3 .undef
             | .thrown e h3 => .thrown e h3
             | .timeout h3 => .timeout h3)
         | .thrown e h2 => .thrown e h2
         | .timeout h2 => .timeout h2
       else .ok (setCtx h cid (allBump h cid idx param)) .undef) := by
  rw [runCb.eq_def]
  rfl

/-- Step equation of `runCb` on a `Promise.all` rejected callback. -/
theorem runCb_allRej (n : Nat) (h : Heap) (d : Nat) (cid idx : Nat) (param : Val) :
    runCb (n + 1) h d (.allRej cid idx) param =
      (match flush n (rejectPromise h (getCtx h cid).result param)
          [(getCtx h cid).result] with
       | .ok h2 => .ok h2 .undef
       | .thrown e h2 => .thrown e h2
       | .timeout h2 => .timeout h2) := by
  rw [runCb.eq_def]

/-- Step equation of `flush` on the empty worklist. -/
theorem flush_nil (n : Nat) (h : Heap) : flush (n + 1) h [] = .ok h := by
  rw [flush.eq_def]

/-- Step equation of `flush` on a non-empty worklist. -/
theorem flush_cons (n : Nat) (h : Heap) (p : Nat) (rest : List Nat) :
    flush (n + 1) h (p :: rest) =
      (if (getObj h p).status = .pending then flush n h rest
       else drain n h p rest) := by
  rw [flush.eq_def]

/-- Step equation of `drain` at positive fuel. -/
theorem drain_succ (n : Nat) (h : Heap) (p : Nat) (rest : List Nat) :
    drain (n + 1) h p rest =
      (match (getObj h p).list with
       | [] => flush n h rest
       | item :: items =>
         match selectCb (getObj (setList h p items) p) item with
         | some (cb, param) =>
           (match runCb n (setList h p items) item.promise cb param with
             | .ok h2 ret =>
               (match resolvePromise n h2 item.promise ret with
                 | .ok h3 => drain n h3 p (rest ++ [item.promise])
                 | .thrown e h3 =>
                   drain n (rejectPromise h3 item.promise e) p (rest ++ [item.promise])
                 | .timeout h3 => .timeout h3)
             | .thrown e h2 =>
               drain n (rejectPromise h2 item.promise e) p (rest ++ [item.promise])
             | .timeout h2 => .timeout h2)
         | none =>
           (match adoptPromise n (setList h p items) item.promise p with
             | .ok h2 => drain n h2 p (rest ++ [item.promise])
             | .thrown e h2 => .thrown e h2
             | .timeout h2 => .timeout h2)) := by
  rw [drain.eq_def]

theorem evolves_refl (h : Heap) : Evolves h h :=
  ⟨le_refl _, fun _ _ => rfl, [], by simp, by simp⟩

theorem evolves_trans {h1 h2 h3 : Heap} (a : Evolves h1 h2) (b : Evolves h2 h3) :
    Evolves h1 h3 := by
  obtain ⟨an, at_, t1, al, af⟩ := a
  obtain ⟨bn, bt, t2, bl, bf⟩ := b
  refine ⟨le_trans an bn, ?_, t1 ++ t2, by rw [bl, al, List.append_assoc], ?_⟩
  · intro q hq
    have h12 := at_ q hq
    have hs : (getObj h2 q).status ≠ .pending := by
      have : (getObj h2 q).status = (getObj h1 q).status :=
        congrArg Prod.fst h12
      rw [this]; exact hq
    rw [bt q hs, h12]
  · intro q hq
    rcases List.mem_append.mp hq with hm | hm
    · exact af q hm
    · exact le_trans an (bf q hm)

/-- A promise with a non-pending status was genuinely allocated. -/
theorem settled_lt_next {h : Heap} {q : Nat}
    (hq : (getObj h q).status ≠ .pending) : q < h.next := by
  by_contra hlt
  have hobj : getObj h q = pendingObj := by
    unfold getObj
    rw [if_neg hlt]
  exact hq (by rw [hobj]; rfl)

theorem getObj_setObj (h : Heap) (i : Nat) (o : PromiseObj) (q : Nat) :
    getObj (setObj h i o) q =
      if q < h.next then (if q = i then o else h.objs q) else pendingObj := by
  simp [getObj, setObj]

theorem getObj_setObj_ne {h : Heap} {i q : Nat} (hne : q ≠ i) (o : PromiseObj) :
    getObj (setObj h i o) q = getObj h q := by
  simp [getObj, setObj, hne]

theorem getObj_setObj_self {h : Heap} {i : Nat} (hi : i < h.next) (o : PromiseObj) :
    getObj (setObj h i o) i = o := by
  simp [getObj_setObj, hi]

/-- Replacing only a promise's reaction list keeps every promise's
settlement triple. -/
theorem triple_setList (h : Heap) (p : Nat) (l : List Reaction) (q : Nat) :
    triple (setList h p l) q = triple h q := by
  unfold triple setList
  rw [getObj_setObj]
  by_cases hqn : q < h.next
  · by_cases hqp : q = p
    · subst hqp
      simp [getObj, hqn]
    · simp [getObj, hqn, hqp]
  · simp [getObj, hqn]

theorem evolves_rejectPromise (h : Heap) (p : Nat) (r : Val) :
    Evolves h (rejectPromise h p r) := by
  unfold rejectPromise
  split
  · exact evolves_refl h
  · next hp =>
    have hp' : (getObj h p).status = .pending := by
      by_contra hc; exact hp hc
    refine ⟨le_refl _, ?_, [], by simp [setObj], by simp⟩
    intro q hq
    have hqp : q ≠ p := by
      intro he; rw [he, hp'] at hq; exact hq rfl
    simp [triple, getObj_setObj_ne hqp]

theorem evolves_setFulfilled {h : Heap} {p : Nat}
    (hp : (getObj h p).status = .pending) (v : Val) :
    Evolves h (setFulfilled h p v) := by
  refine ⟨le_refl _, ?_, [], by simp [setFulfilled, setObj], by simp⟩
  intro q hq
  have hqp : q ≠ p := by
    intro he; rw [he, hp] at hq; exact hq rfl
  simp [triple, setFulfilled, getObj_setObj_ne hqp]

theorem evolves_setList (h : Heap) (p : Nat) (l : List Reaction) :
    Evolves h (setList h p l) := by
  refine ⟨le_refl _, ?_, [], by simp [setList, setObj], by simp⟩
  intro q _
  exact triple_setList h p l q

theorem evolves_setCtx (h : Heap) (i : Nat) (c : AllCtx) :
    Evolves h (setCtx h i c) := by
  refine ⟨le_refl _, ?_, [], by simp [setCtx], by simp⟩
  intro q _
  simp [triple, getObj, setCtx]

theorem evolves_pushTask (h : Heap) (p : Nat) : Evolves h (pushTask h p) := by
  refine ⟨le_refl _, ?_, [], by simp [pushTask], by simp⟩
  intro q _
  simp [triple, getObj, pushTask]

theorem evolves_newPromise (h : Heap) : Evolves h (newPromise h).1 := by
  refine ⟨by simp [newPromise, pushLog, alloc], ?_, [.ecall h.next],
    by simp [newPromise, pushLog, alloc], ?_⟩
  · intro q hq
    have hlt : q < h.next := settled_lt_next hq
    simp [triple, getObj, newPromise, pushLog, alloc, Nat.ne_of_lt hlt,
      hlt, Nat.lt_succ_of_lt hlt]
  · intro q hq
    simp at hq
    omega

theorem evolves_thenFn (h : Heap) (me : Nat) (onFul onRej : Option Callback) :
    Evolves h (thenFn h me onFul onRej).1 := by
  refine evolves_trans (evolves_newPromise h) ?_
  show Evolves (newPromise h).1 _
  unfold thenFn
  simp only []
  refine @evolves_trans _ (setList (newPromise h).1 me
    ((getObj (newPromise h).1 me).list ++
        [⟨onFul, onRej, (newPromise h).2⟩])) _ ?_ ?_
  · refine ⟨le_refl _, ?_, [], by simp [setList, setObj], by simp⟩
    intro q _
    exact triple_setList _ me _ q
  · split
    · exact evolves_pushTask _ _
    · exact evolves_refl _

theorem evolves_pushLog_ucall (h : Heap) (d : Nat) (v : Val) :
    Evolves h (pushLog h (.ucall d v)) := by
  refine ⟨le_refl _, ?_, [.ucall d v], by simp [pushLog], by simp⟩
  intro q _
  simp [triple, getObj, pushLog]

/-- Every run of the machine evolves the heap: the allocation counter only
grows, settled promises never change their status/value/reason again, and the
log grows append-only with executor events only for freshly allocated
promises.  Proven simultaneously for all six mutually recursive functions by
induction on fuel. -/
theorem evolves_machine : ∀ fuel : Nat,
    (∀ h p v r, resolvePromise fuel h p v = r → Evolves h r.heap) ∧
    (∀ h s t r, adoptPromise fuel h s t = r → Evolves h r.heap) ∧
    (∀ h p a b acts r, runScript fuel h p a b acts = r → Evolves h r.heap) ∧
    (∀ h d cb param r, runCb fuel h d cb param = r → Evolves h r.heap) ∧
    (∀ h q r, flush fuel h q = r → Evolves h r.heap) ∧
    (∀ h p q r, drain fuel h p q = r → Evolves h r.heap) := by
  intro fuel
  induction fuel with
  | zero =>
    refine ⟨?_, ?_, ?_, ?_, ?_, ?_⟩
    · intro h p v r hr
      simp only [resolvePromise] at hr
      subst hr
      exact evolves_refl h
    · intro h s t r hr
      simp only [adoptPromise] at hr
      subst hr
      exact evolves_refl h
    · intro h p a b acts r hr
      simp only [runScript] at hr
      subst hr
      exact evolves_refl h
    · intro h d cb param r hr
      simp only [runCb] at hr
      subst hr
      exact evolves_refl h
    · intro h q r hr
      simp only [flush] at hr
      subst hr
      exact evolves_refl h
    · intro h p q r hr
      simp only [drain] at hr
      subst hr
      exact evolves_refl h
  | succ n ih =>
    obtain ⟨ihR, ihA, ihS, ihC, ihF, ihD⟩ := ih
    have hR : ∀ h p v r, resolvePromise (n + 1) h p v = r → Evolves h r.heap := by
      intro h p v r hr
      subst hr
      rw [resolvePromise_succ]
      split
      · exact evolves_refl h
      · next hpend =>
        have hp : (getObj h p).status = .pending := not_not.mp hpend
        split
        · split
          · exact evolves_refl h
          · exact ihA _ _ _ _ rfl
        · split
          · next h' heq =>
            have t := ihS _ _ _ _ _ _ heq
            exact t
          · next h' heq =>
            have t := ihS _ _ _ _ _ _ heq
            exact t
          · next h' heq =>
            have t := ihS _ _ _ _ _ _ heq
            exact t
        · exact evolves_rejectPromise h p _
        · exact evolves_setFulfilled hp _
    have hA : ∀ h s t r, adoptPromise (n + 1) h s t = r → Evolves h r.heap := by
      intro h s t r hr
      subst hr
      rw [adoptPromise_succ]
      split
      · exact evolves_thenFn h _ _ _
      · exact ihR _ _ _ _ rfl
      · exact evolves_rejectPromise h s _
    have hS : ∀ h p a b acts r, runScript (n + 1) h p a b acts = r → Evolves h r.heap := by
      intro h p a b acts r hr
      subst hr
      match acts with
      | [] => rw [runScript_nil]; exact evolves_refl h
      | (true, v) :: rest =>
        rw [runScript_res]
        split
        · exact ihS _ _ _ _ _ _ rfl
        · split
          · next h' heq =>
            exact evolves_trans (ihR _ _ _ _ heq) (ihS _ _ _ _ _ _ rfl)
          · next e h' heq => exact ihR _ _ _ _ heq
          · next h' heq => exact ihR _ _ _ _ heq
      | (false, rr) :: rest =>
        rw [runScript_rej]
        split
        · exact ihS _ _ _ _ _ _ rfl
        · exact evolves_trans (evolves_rejectPromise h p rr) (ihS _ _ _ _ _ _ rfl)
    have hC : ∀ h d cb param r, runCb (n + 1) h d cb param = r → Evolves h r.heap := by
      intro h d cb param r hr
      subst hr
      match cb with
      | .user f =>
        rw [runCb_user]
        split
        · exact evolves_pushLog_ucall h d param
        · exact evolves_pushLog_ucall h d param
      | .adopt source true =>
        rw [runCb_adoptRes]
        split
        · next h' heq => exact ihR _ _ _ _ heq
        · next e h' heq => exact ihR _ _ _ _ heq
        · next h' heq => exact ihR _ _ _ _ heq
      | .adopt source false =>
        rw [runCb_adoptRej]
        exact evolves_rejectPromise h source param
      | .allFul cid idx =>
        rw [runCb_allFul]
        split
        · split
          · next h2 heq =>
            split
            · next h3 hf =>
              exact evolves_trans (evolves_setCtx h cid _)
                (evolves_trans (ihR _ _ _ _ heq) (ihF _ _ _ hf))
            · next e h3 hf =>
              exact evolves_trans (evolves_setCtx h cid _)
                (evolves_trans (ihR _ _ _ _ heq) (ihF _ _ _ hf))
            · next h3 hf =>
              exact evolves_trans (evolves_setCtx h cid _)
                (evolves_trans (ihR _ _ _ _ heq) (ihF _ _ _ hf))
          · next e h2 heq =>
            exact evolves_trans (evolves_setCtx h cid _) (ihR _ _ _ _ heq)
          · next h2 heq =>
            exact evolves_trans (evolves_setCtx h cid _) (ihR _ _ _ _ heq)
        · exact evolves_setCtx h cid _
      | .allRej cid idx =>
        rw [runCb_allRej]
        split
        · next h2 hf =>
          exact evolves_trans (evolves_rejectPromise h _ param) (ihF _ _ _ hf)
        · next e h2 hf =>
          exact evolves_trans (evolves_rejectPromise h _ param) (ihF _ _ _ hf)
        · next h2 hf =>
          exact evolves_trans (evolves_rejectPromise h _ param) (ihF _ _ _ hf)
    have hF : ∀ h q r, flush (n + 1) h q = r → Evolves h r.heap := by
      intro h q r hr
      subst hr
      match q with
      | [] => rw [flush_nil]; exact evolves_refl h
      | p :: rest =>
        rw [flush_cons]
        split
        · exact ihF _ _ _ rfl
        · exact ihD _ _ _ _ rfl
    have hD : ∀ h p q r, drain (n + 1) h p q = r → Evolves h r.heap := by
      intro h p q r hr
      subst hr
      rw [drain_succ]
      split
      · exact ihF _ _ _ rfl
      · next item items hl =>
        have e1 := evolves_setList h p items
        split
        · split
          · next h2 ret hc =>
            split
            · next h3 hres =>
              exact evolves_trans e1 (evolves_trans (ihC _ _ _ _ _ hc)
                (evolves_trans (ihR _ _ _ _ hres) (ihD _ _ _ _ rfl)))
            · next e h3 hres =>
              exact evolves_trans e1 (evolves_trans (ihC _ _ _ _ _ hc)
                (evolves_trans (ihR _ _ _ _ hres)
                  (evolves_trans (evolves_rejectPromise h3 item.promise e)
                    (ihD _ _ _ _ rfl))))
            · next h3 hres =>
              exact evolves_trans e1 (evolves_trans (ihC _ _ _ _ _ hc)
                (ihR _ _ _ _ hres))
          · next e h2 hc =>
            exact evolves_trans e1 (evolves_trans (ihC _ _ _ _ _ hc)
              (evolves_trans (evolves_rejectPromise h2 item.promise e)
                (ihD _ _ _ _ rfl)))
          · next h2 hc =>
            exact evolves_trans e1 (ihC _ _ _ _ _ hc)
        · split
          · next h2 ha =>
            exact evolves_trans e1 (evolves_trans (ihA _ _ _ _ ha) (ihD _ _ _ _ rfl))
          · next e h2 ha =>
            exact evolves_trans e1 (ihA _ _ _ _ ha)
          · next h2 ha =>
            exact evolves_trans e1 (ihA _ _ _ _ ha)
    exact ⟨hR, hA, hS, hC, hF, hD⟩

theorem evolves_resolvePromise (fuel : Nat) (h : Heap) (p : Nat) (v : Val) :
    Evolves h (resolvePromise fuel h p v).heap :=
  (evolves_machine fuel).1 h p v _ rfl

theorem evolves_runScript (fuel : Nat) (h : Heap) (p : Nat) (a b : Bool)
    (acts : List (Bool × Val)) : Evolves h (runScript fuel h p a b acts).heap :=
  (evolves_machine fuel).2.2.1 h p a b acts _ rfl

theorem evolves_flush (fuel : Nat) (h : Heap) (q : List Nat) :
    Evolves h (flush fuel h q).heap :=
  (evolves_machine fuel).2.2.2.2.1 h q _ rfl

theorem evolves_settleFulfilled (fuel : Nat) (h : Heap) (p : Nat) (v : Val) :
    Evolves h (settleFulfilled fuel h p v).heap := by
  unfold settleFulfilled
  cases hr : resolvePromise fuel h p v with
  | ok h' =>
    have e1 := evolves_resolvePromise fuel h p v
    rw [hr] at e1
    exact evolves_trans e1 (evolves_flush fuel h' [p])
  | thrown e h' =>
    have e1 := evolves_resolvePromise fuel h p v
    rw [hr] at e1
    exact e1
  | timeout h' =>
    have e1 := evolves_resolvePromise fuel h p v
    rw [hr] at e1
    exact e1

theorem evolves_settleRejected (fuel : Nat) (h : Heap) (p : Nat) (r : Val) :
    Evolves h (settleRejected fuel h p r).heap := by
  unfold settleRejected
  exact evolves_trans (evolves_rejectPromise h p r)
    (evolves_flush fuel (rejectPromise h p r) [p])

theorem evolves_runExec (fuel : Nat) (h : Heap) (p : Nat) (acts : List EAct) :
    Evolves h (runExec fuel h p acts).heap := by
  induction acts generalizing h with
  | nil => exact evolves_refl h
  | cons a rest ihr =>
    cases a with
    | callRes v =>
      simp only [runExec]
      cases hs : settleFulfilled fuel h p v with
      | ok h' =>
        have e1 := evolves_settleFulfilled fuel h p v
        rw [hs] at e1
        exact evolves_trans e1 (ihr h')
      | thrown e h' =>
        have e1 := evolves_settleFulfilled fuel h p v
        rw [hs] at e1
        exact e1
      | timeout h' =>
        have e1 := evolves_settleFulfilled fuel h p v
        rw [hs] at e1
        exact e1
    | callRej r =>
      simp only [runExec]
      cases hs : settleRejected fuel h p r with
      | ok h' =>
        have e1 := evolves_settleRejected fuel h p r
        rw [hs] at e1
        exact evolves_trans e1 (ihr h')
      | thrown e h' =>
        have e1 := evolves_settleRejected fuel h p r
        rw [hs] at e1
        exact e1
      | timeout h' =>
        have e1 := evolves_settleRejected fuel h p r
        rw [hs] at e1
        exact e1
    | raise e => exact evolves_refl h

theorem evolves_runEvents (fuel : Nat) (h : Heap) (evs : List SettleEv) :
    Evolves h (runEvents fuel h evs).heap := by
  induction evs generalizing h with
  | nil => exact evolves_refl h
  | cons ev rest ihr =>
    simp only [runEvents]
    cases hb : ev.isFul
    · rw [if_neg (by simp)]
      cases hs : settleRejected fuel h ev.idx ev.pay with
      | ok h' =>
        have e1 := evolves_settleRejected fuel h ev.idx ev.pay
        rw [hs] at e1
        exact evolves_trans e1 (ihr h')
      | thrown e h' =>
        have e1 := evolves_settleRejected fuel h ev.idx ev.pay
        rw [hs] at e1
        exact e1
      | timeout h' =>
        have e1 := evolves_settleRejected fuel h ev.idx ev.pay
        rw [hs] at e1
        exact e1
    · rw [if_pos rfl]
      cases hs : settleFulfilled fuel h ev.idx ev.pay with
      | ok h' =>
        have e1 := evolves_settleFulfilled fuel h ev.idx ev.pay
        rw [hs] at e1
        exact evolves_trans e1 (ihr h')
      | thrown e h' =>
        have e1 := evolves_settleFulfilled fuel h ev.idx ev.pay
        rw [hs] at e1
        exact e1
      | timeout h' =>
        have e1 := evolves_settleFulfilled fuel h ev.idx ev.pay
        rw [hs] at e1
        exact e1

/-- Projection of `Evolves`: a settled promise's status never changes. -/
theorem Evolves.status_eq {h h' : Heap} (e : Evolves h h') {q : Nat}
    (hq : (getObj h q).status ≠ .pending) :
    (getObj h' q).status = (getObj h q).status :=
  congrArg Prod.fst (e.2.1 q hq)

/-- Projection of `Evolves`: a settled promise's value never changes. -/
theorem Evolves.value_eq {h h' : Heap} (e : Evolves h h') {q : Nat}
    (hq : (getObj h q).status ≠ .pending) :
    (getObj h' q).value = (getObj h q).value :=
  congrArg (fun t => t.2.1) (e.2.1 q hq)

/-- Projection of `Evolves`: a settled promise's reason never changes. -/
theorem Evolves.reason_eq {h h' : Heap} (e : Evolves h h') {q : Nat}
    (hq : (getObj h q).status ≠ .pending) :
    (getObj h' q).reason = (getObj h q).reason :=
  congrArg (fun t => t.2.2) (e.2.1 q hq)

/-- A settled promise ignores `resolvePromise` entirely (the idempotent
guard is the first statement). -/
theorem resolvePromise_settled (n : Nat) (h : Heap) (p : Nat) (v : Val)
    (hp : (getObj h p).status ≠ .pending) :
    resolvePromise (n + 1) h p v = .ok h := by
  rw [resolvePromise_succ, if_pos hp]

/-- Resolving a pending promise with a plain value settles it fulfilled. -/
theorem resolvePromise_plain (n : Nat) (h : Heap) (p : Nat) (v : Val)
    (hv : isPlain v = true) (hp : (getObj h p).status = .pending) :
    resolvePromise (n + 1) h p v = .ok (setFulfilled h p v) := by
  rw [resolvePromise_succ, if_neg (by rw [hp]; exact fun hne => hne rfl)]
  cases v <;> first | rfl | simp [isPlain] at hv

/-- Resolving a pending promise with itself throws the self-resolution error
before any state change. -/
theorem resolvePromise_self (n : Nat) (h : Heap) (p : Nat)
    (hp : (getObj h p).status = .pending) :
    resolvePromise (n + 1) h p (.promiseRef p) = .thrown selfError h := by
  rw [resolvePromise_succ, if_neg (by rw [hp]; exact fun hne => hne rfl)]
  simp

/-- A settled promise ignores `rejectPromise` entirely. -/
theorem rejectPromise_settled {h : Heap} {p : Nat}
    (hp : (getObj h p).status ≠ .pending) (r : Val) : rejectPromise h p r = h := by
  unfold rejectPromise
  rw [if_pos hp]

/-- Rejecting a pending promise records the rejected status and reason. -/
theorem getObj_rejectPromise_pending {h : Heap} {p : Nat}
    (hp : (getObj h p).status = .pending) (hlt : p < h.next) (r : Val) :
    getObj (rejectPromise h p r) p =
      { getObj h p with status := .rejected, reason := r } := by
  unfold rejectPromise
  rw [if_neg (by rw [hp]; exact fun hne => hne rfl)]
  exact getObj_setObj_self hlt _

/-- Fulfilling a promise records the fulfilled status and value. -/
theorem getObj_setFulfilled_self {h : Heap} {p : Nat} (hlt : p < h.next) (v : Val) :
    getObj (setFulfilled h p v) p =
      { getObj h p with status := .fulfilled, value := v } :=
  getObj_setObj_self hlt _

/-- Reading around a fresh allocation. -/
theorem getObj_newPromise (h : Heap) (q : Nat) :
    getObj (newPromise h).1 q = if q = h.next then pendingObj else getObj h q := by
  by_cases hq : q = h.next
  · subst hq
    simp [newPromise, pushLog, alloc, getObj]
  · by_cases hlt : q < h.next
    · simp [newPromise, pushLog, alloc, getObj, hq, hlt, Nat.lt_succ_of_lt hlt]
    · have hlt' : ¬ q < h.next + 1 := by omega
      simp [newPromise, pushLog, alloc, getObj, hq, hlt, hlt']

/-- Claim C1 (counterexample): invoking the settlement callback on a pending
future with a waiting reaction runs the registered `onFulfilled` callback
synchronously inside that call — after the call returns, the log already
contains the user-callback invocation although the `scheduleDeferred` queue
was never used (it is empty before and after).  This falsifies both
"returns before any registered onFulfilled/onRejected callback is invoked"
and "delivery always goes through the external scheduleDeferred primitive":
the settlement path calls `flush(me)` directly (source lines 339–348). -/
theorem c1_settle_runs_reactions_synchronously :
    userEvents c1Reg.log = [] ∧ c1Reg.tasks = [] ∧
    userEvents (Res.heap c1Run).log = [.ucall 1 (.num 1)] ∧
    (Res.heap c1Run).tasks = [] :=
  ⟨rfl, rfl, rfl, rfl⟩

/-- Claim C1 (amended): only the `then`-on-an-already-settled-future half of
the claim holds: such a `then` call returns without invoking any registered
callback (the log gains only the executor event of the freshly created
derived promise, no user-callback event) and delivery is deferred through the
external scheduling primitive (a flush task is enqueued); the derived promise
is still pending when `then` returns.  The settlement-callback half of the
original claim is false (see the counterexample): reactions waiting on a
pending future run synchronously inside the settling call. -/
theorem c1_then_on_settled_defers (h : Heap) (me : Nat)
    (onFul onRej : Option Callback) (hs : (getObj h me).status ≠ .pending) :
    (thenFn h me onFul onRej).1.log = h.log ++ [.ecall h.next] ∧
    userEvents (thenFn h me onFul onRej).1.log = userEvents h.log ∧
    (thenFn h me onFul onRej).1.tasks = h.tasks ++ [me] ∧
    (thenFn h me onFul onRej).2 = h.next ∧
    (getObj (thenFn h me onFul onRej).1 (thenFn h me onFul onRej).2).status
      = .pending := by
  have hme : me ≠ h.next := Nat.ne_of_lt (settled_lt_next hs)
  have hobj : getObj (newPromise h).1 me = getObj h me := by
    rw [getObj_newPromise, if_neg hme]
  have key : (thenFn h me onFul onRej).1 =
      pushTask (setObj (newPromise h).1 me
        { getObj h me with
          list := (getObj h me).list ++ [⟨onFul, onRej, (newPromise h).2⟩] }) me := by
    show (if (getObj (newPromise h).1 me).status ≠ Status.pending
        then pushTask (setObj (newPromise h).1 me
          { getObj (newPromise h).1 me with
            list := (getObj (newPromise h).1 me).list
              ++ [⟨onFul, onRej, (newPromise h).2⟩] }) me
        else setObj (newPromise h).1 me
          { getObj (newPromise h).1 me with
            list := (getObj (newPromise h).1 me).list
              ++ [⟨onFul, onRej, (newPromise h).2⟩] }) = _
    rw [hobj, if_pos hs]
  refine ⟨?_, ?_, ?_, rfl, ?_⟩
  · rw [key]
    simp [pushTask, setObj, newPromise, pushLog, alloc]
  · rw [key]
    simp [pushTask, setObj, newPromise, pushLog, alloc, userEvents]
  · rw [key]
    simp [pushTask, setObj, newPromise, pushLog, alloc]
  · show (getObj (thenFn h me onFul onRej).1 (newPromise h).2).status = .pending
    rw [key]
    have t1 : getObj (pushTask (setObj (newPromise h).1 me
        { getObj h me with
          list := (getObj h me).list ++ [⟨onFul, onRej, (newPromise h).2⟩] }) me)
        (newPromise h).2 =
        getObj (setObj (newPromise h).1 me
        { getObj h me with
          list := (getObj h me).list ++ [⟨onFul, onRej, (newPromise h).2⟩] })
        (newPromise h).2 := rfl
    have t2 : (newPromise h).2 = h.next := rfl
    rw [t1, t2, getObj_setObj_ne (Ne.symm hme), getObj_newPromise, if_pos rfl]
    rfl

/-- Claim C1 (witness for the amended theorem): a fulfilled promise, a `then`
call on it. -/
theorem c1_then_on_settled_defers_witness :
    ((getObj (mkPromise 3 emptyHeap (.fn [.callRes (.num 1)])).heap 0).status
        ≠ .pending) ∧
    ((thenFn (mkPromise 3 emptyHeap (.fn [.callRes (.num 1)])).heap 0
        (some (.user .idf)) none).1.tasks =
      (mkPromise 3 emptyHeap (.fn [.callRes (.num 1)])).heap.tasks ++ [0]) :=
  ⟨by decide,
   (c1_then_on_settled_defers (mkPromise 3 emptyHeap (.fn [.callRes (.num 1)])).heap
      0 (some (.user .idf)) none (by decide)).2.2.1⟩

/-- Claim C2 (counterexample): resolving a pending future with itself through
the constructor-provided settlement callback does not settle it as Rejected —
the self-resolution error is thrown to the caller of the settlement routine
(source line 228: `throw new Error(…)`) and the future stays Pending. -/
theorem c2_self_resolution_throws_and_stays_pending :
    settleFulfilled 9 c2Pend 0 (.promiseRef 0) = .thrown selfError c2Pend ∧
    (getObj c2Pend 0).status = .pending :=
  ⟨rfl, rfl⟩

/-- Claim C2 (amended): resolving a pending future `f` with `f` itself throws
the self-resolution error to the caller of the settlement routine, leaving
`f` Pending and the heap untouched; only when a reaction callback returns its
own derived future during `flush` is the error caught by the `try`/`catch`
around the callback and converted into that derived future's rejection
reason (second and third conjuncts: the concrete flush-path scenario ends
with the derived promise Rejected with the self-resolution error). -/
theorem c2_amended :
    (∀ (fuel : Nat) (h : Heap) (p : Nat), (getObj h p).status = .pending →
      settleFulfilled (fuel + 1) h p (.promiseRef p) = .thrown selfError h) ∧
    (getObj (Res.heap c2Tick) 1).status = .rejected ∧
    (getObj (Res.heap c2Tick) 1).reason = selfError := by
  refine ⟨?_, rfl, rfl⟩
  intro fuel h p hp
  unfold settleFulfilled
  rw [resolvePromise_self fuel h p hp]

/-- Claim C2 (witness for the amended theorem, applied at the concrete
pending promise of the counterexample scenario). -/
theorem c2_amended_witness :
    (getObj c2Pend 0).status = .pending ∧
    settleFulfilled 3 c2Pend 0 (.promiseRef 0) = .thrown selfError c2Pend :=
  ⟨rfl, c2_amended.1 2 c2Pend 0 rfl⟩

/-- Claim C3 (code bug): `Future.all` applied to the empty sequence does
*not* fulfill immediately with an empty sequence — the registration loop
never runs, `couter` can never reach `length`, and nothing else ever settles
the result: after `Promise.all([])` returns, the result promise is Pending
with no reactions, no pending flush tasks exist, and the `Promise.all`
counter state is `0` of `0`, never to be revisited.  The result therefore
hangs forever. -/
theorem c3_all_empty_stays_pending :
    (getObj c3Run.1 c3Run.2).status = .pending ∧
    (getObj c3Run.1 c3Run.2).list = [] ∧
    c3Run.1.tasks = [] ∧
    (getCtx c3Run.1 0).counter = 0 ∧ (getCtx c3Run.1 0).len = 0 :=
  ⟨rfl, rfl, rfl, rfl, rfl⟩

/-- Claim C10 (confirmed): invoking the `Promise` constructor as a plain
strict-mode function call (receiver `undefined`) takes the
`if (!isPromise(me)) return new Promise(executor)` branch and produces
exactly the result of a normal `new` construction, for every executor
argument (callable or not) and every heap. -/
theorem c10_plain_call_constructs (fuel : Nat) (h : Heap) (arg : ExecArg) :
    promiseCall fuel h .undefRecv arg = mkPromise fuel h arg := rfl

/-- The heap reached by a constructor call with a callable executor is the
heap reached by running the executor body from the initialised state. -/
theorem mkPromise_fn_heap (fuel : Nat) (h : Heap) (acts : List EAct) :
    (mkPromise fuel h (.fn acts)).heap =
      (runExec fuel
        (pushLog (setObj (alloc h).1 (alloc h).2 pendingObj) (.ecall (alloc h).2))
        (alloc h).2 acts).heap := by
  show (match runExec fuel
      (pushLog (setObj (alloc h).1 (alloc h).2 pendingObj) (.ecall (alloc h).2))
      (alloc h).2 acts with
    | Res.ok h3 => PRes.ok h3 (alloc h).2
    | Res.thrown e h3 => PRes.thrown e h3
    | Res.timeout h3 => PRes.timeout h3).heap = _
  cases runExec fuel
      (pushLog (setObj (alloc h).1 (alloc h).2 pendingObj) (.ecall (alloc h).2))
      (alloc h).2 acts <;> rfl

/-- Claim C7 (confirmed): the constructor raises the `InvalidInitializer`
error exactly when the executor argument is not callable (first conjunct:
a non-callable argument always throws it, with no promise state touched; the
remaining conjuncts show the callable path never produces it and instead runs
the executor).  A callable executor is invoked synchronously and exactly once:
the executor-invocation event of the new promise is appended to the log
exactly once, before any event produced by the executor's own actions (second
conjunct).  If the executor raises before calling either settlement callback,
the raised error propagates to the constructor's caller as a thrown result
and the promise is left Pending, not rejected (third conjunct). -/
theorem c7_constructor_contract :
    (∀ (fuel : Nat) (h : Heap) (v : Val),
      mkPromise fuel h (.notFn v) = .thrown (.err invalidInitMsg) (alloc h).1) ∧
    (∀ (fuel : Nat) (h : Heap) (acts : List EAct), ∃ t,
      (mkPromise fuel h (.fn acts)).heap.log = h.log ++ [.ecall h.next] ++ t ∧
      Event.ecall h.next ∉ t) ∧
    (∀ (fuel : Nat) (h : Heap) (e : Val) (rest : List EAct), ∃ h',
      mkPromise fuel h (.fn (.raise e :: rest)) = .thrown e h' ∧
      (getObj h' h.next).status = .pending ∧
      h'.log = h.log ++ [.ecall h.next]) := by
  refine ⟨fun _ _ _ => rfl, ?_, ?_⟩
  · intro fuel h acts
    obtain ⟨-, -, t, hlog, hfresh⟩ := evolves_runExec fuel
      (pushLog (setObj (alloc h).1 (alloc h).2 pendingObj) (.ecall (alloc h).2))
      (alloc h).2 acts
    refine ⟨t, ?_, ?_⟩
    · rw [mkPromise_fn_heap, hlog]
      rfl
    · intro hmem
      have := hfresh h.next hmem
      have hn : (pushLog (setObj (alloc h).1 (alloc h).2 pendingObj)
          (.ecall (alloc h).2)).next = h.next + 1 := rfl
      omega
  · intro fuel h e rest
    refine ⟨pushLog (setObj (alloc h).1 (alloc h).2 pendingObj)
      (.ecall (alloc h).2), rfl, ?_, rfl⟩
    have : getObj (pushLog (setObj (alloc h).1 (alloc h).2 pendingObj)
        (.ecall (alloc h).2)) h.next = pendingObj := by
      show getObj (setObj (alloc h).1 h.next pendingObj) h.next = pendingObj
      exact getObj_setObj_self (Nat.lt_succ_self h.next) pendingObj
    rw [this]
    rfl

/-- Claim C5 (counterexample): a misbehaving thenable whose `then` first
calls the resolve callback (with a thenable that settles nothing) and then
calls the reject callback.  The first call across both callbacks is the
resolve call, yet the future ends up Rejected with the second call's reason:
the two one-shot guards are independent (`isResolved` / `isRejected`), so a
resolve call that leaves the future pending does not disable the reject
callback, contradicting "only the first call across both callbacks and all
invocations has any effect on the future's settlement … the future settles
according to the first call". -/
theorem c5_first_call_does_not_win :
    (getObj (Res.heap (settleFulfilled 9 c5Pend 0
        (.thenable [(true, .thenable []), (false, .str "x")]))) 0).status
      = .rejected ∧
    (getObj (Res.heap (settleFulfilled 9 c5Pend 0
        (.thenable [(true, .thenable []), (false, .str "x")]))) 0).reason
      = .str "x" :=
  ⟨rfl, rfl⟩

/-- Claim C5 (amended): the thenable's `then` is invoked with two guarded
callbacks such that (1, 2) each callback individually is one-shot — once its
flag is set, a repeated invocation of the same callback is a no-op; (3) a
settled future is never re-settled by the remaining calls, so the future
settles at most once; (4, 5) settlement follows the first call whenever that
call settles the future immediately — a reject call, or a resolve call with a
plain value; but (unlike the original claim) a first resolve call whose value
leaves the future pending does not prevent a later reject call from settling
it. -/
theorem c5_one_shot_guards :
    (∀ (n : Nat) (h : Heap) (p : Nat) (b : Bool) (v : Val)
        (rest : List (Bool × Val)),
      runScript (n + 1) h p true b ((true, v) :: rest) =
        runScript n h p true b rest) ∧
    (∀ (n : Nat) (h : Heap) (p : Nat) (a : Bool) (r : Val)
        (rest : List (Bool × Val)),
      runScript (n + 1) h p a true ((false, r) :: rest) =
        runScript n h p a true rest) ∧
    (∀ (n : Nat) (h : Heap) (p : Nat) (a b : Bool) (acts : List (Bool × Val)),
      (getObj h p).status ≠ .pending →
      triple (runScript n h p a b acts).heap p = triple h p) ∧
    (∀ (n : Nat) (h : Heap) (p : Nat) (r : Val) (rest : List (Bool × Val)),
      (getObj h p).status = .pending → p < h.next →
      (getObj (runScript (n + 1) h p false false ((false, r) :: rest)).heap p).status
          = .rejected ∧
      (getObj (runScript (n + 1) h p false false ((false, r) :: rest)).heap p).reason
          = r) ∧
    (∀ (n : Nat) (h : Heap) (p : Nat) (b : Bool) (v : Val)
        (rest : List (Bool × Val)),
      (getObj h p).status = .pending → p < h.next → isPlain v = true →
      (getObj (runScript (n + 2) h p false b ((true, v) :: rest)).heap p).status
          = .fulfilled ∧
      (getObj (runScript (n + 2) h p false b ((true, v) :: rest)).heap p).value
          = v) := by
  refine ⟨?_, ?_, ?_, ?_, ?_⟩
  · intro n h p b v rest
    rw [runScript_res, if_pos rfl]
  · intro n h p a r rest
    rw [runScript_rej, if_pos rfl]
  · intro n h p a b acts hp
    exact (evolves_runScript n h p a b acts).2.1 p hp
  · intro n h p r rest hp hlt
    rw [runScript_rej, if_neg (by simp)]
    have hro : getObj (rejectPromise h p r) p =
        { getObj h p with status := .rejected, reason := r } :=
      getObj_rejectPromise_pending hp hlt r
    have hset : (getObj (rejectPromise h p r) p).status ≠ .pending := by
      rw [hro]
      exact fun hc => nomatch hc
    have e := evolves_runScript n (rejectPromise h p r) p false true rest
    exact ⟨by rw [e.status_eq hset, hro], by rw [e.reason_eq hset, hro]⟩
  · intro n h p b v rest hp hlt hv
    have hstep : runScript (n + 2) h p false b ((true, v) :: rest) =
        runScript (n + 1) (setFulfilled h p v) p true b rest := by
      rw [runScript_res, if_neg (by simp), resolvePromise_plain n h p v hv hp]
    have hso : getObj (setFulfilled h p v) p =
        { getObj h p with status := .fulfilled, value := v } :=
      getObj_setFulfilled_self hlt v
    have hset : (getObj (setFulfilled h p v) p).status ≠ .pending := by
      rw [hso]
      exact fun hc => nomatch hc
    have e := evolves_runScript (n + 1) (setFulfilled h p v) p true b rest
    exact ⟨by rw [hstep, e.status_eq hset, hso],
      by rw [hstep, e.value_eq hset, hso]⟩

/-- Claim C5 (witness for the amended theorem): the reject-first and the
one-shot conjuncts applied at concrete inputs. -/
theorem c5_one_shot_guards_witness :
    (getObj c5Pend 0).status = .pending ∧
    (getObj (runScript 3 c5Pend 0 false false [(false, .str "x")]).heap 0).status
      = .rejected :=
  ⟨rfl, (c5_one_shot_guards.2.2.2.1 2 c5Pend 0 (.str "x") [] rfl (by decide)).1⟩

/-- Claim C6 (confirmed): after a future `f` has settled, invoking its
fulfill-settlement routine or reject-settlement routine any number of
additional times, in any order and with any values, leaves `f`'s
status/value/reason triple unchanged (the idempotent guard is the first
statement of both `resolvePromise` and `rejectPromise`, and nothing a flush
does can re-settle a settled promise). -/
theorem c6_idempotent_settlement (fuel : Nat) (h : Heap) (p : Nat)
    (evs : List SettleEv) (_hidx : ∀ ev ∈ evs, ev.idx = p)
    (hp : (getObj h p).status ≠ .pending) :
    triple (runEvents fuel h evs).heap p = triple h p :=
  (evolves_runEvents fuel h evs).2.1 p hp

/-- Claim C6 (witness): a fulfilled promise hit again by one fulfill call and
one reject call. -/
theorem c6_idempotent_settlement_witness :
    (getObj c6Base 0).status ≠ .pending ∧
    triple (runEvents 9 c6Base [⟨0, .num 9, true⟩, ⟨0, .str "r", false⟩]).heap 0
      = triple c6Base 0 :=
  ⟨by decide,
   c6_idempotent_settlement 9 c6Base 0 [⟨0, .num 9, true⟩, ⟨0, .str "r", false⟩]
     (by intro ev hev; simp at hev; rcases hev with rfl | rfl <;> rfl)
     (by decide)⟩

theorem getObj_setList_self {h : Heap} {p : Nat} (hlt : p < h.next)
    (l : List Reaction) :
    getObj (setList h p l) p = { getObj h p with list := l } :=
  getObj_setObj_self hlt _

theorem getObj_setList_ne {h : Heap} {p y : Nat} (hne : y ≠ p)
    (l : List Reaction) : getObj (setList h p l) y = getObj h y :=
  getObj_setObj_ne hne _

/-- Flushing a worklist of settled promises with empty reaction lists does
nothing (each entry is popped after an empty drain). -/
theorem flush_settled (q : List Nat) : ∀ (n : Nat) (h : Heap),
    (∀ x ∈ q, (getObj h x).status ≠ .pending ∧ (getObj h x).list = []) →
    flush (2 * q.length + 1 + n) h q = .ok h := by
  induction q with
  | nil =>
    intro n h _
    have hf : 2 * ([] : List Nat).length + 1 + n = n + 1 := by simp; omega
    rw [hf, flush_nil]
  | cons x rest ihq =>
    intro n h hall
    have hfuel : 2 * (x :: rest).length + 1 + n
        = (2 * rest.length + 1 + (n + 1)) + 1 := by
      simp [List.length]
      omega
    rw [hfuel, flush_cons, if_neg (hall x (by simp)).1]
    have hfuel2 : 2 * rest.length + 1 + (n + 1)
        = (2 * rest.length + 1 + n) + 1 := by omega
    rw [hfuel2, drain_succ, (hall x (by simp)).2]
    exact ihq n h (fun y hy => hall y (by simp [hy]))

/-- One `flush` drain step over a reaction whose selected callback is a user
callback with a plain outcome: the reaction is consumed, the callback is
invoked (logged) exactly once, its derived promise is settled — fulfilled
with the returned value, or rejected with the thrown value — and the walk
continues with the derived promise appended to the worklist.  Nothing else
in the heap changes. -/
theorem drain_step_user (n : Nat) (h : Heap) (p : Nat) (item : Reaction)
    (items : List Reaction) (q : List Nat) (f : UserFn) (w : Val)
    (hl : (getObj h p).list = item :: items)
    (hplt : p < h.next)
    (hdp : item.promise ≠ p)
    (hdlt : item.promise < h.next)
    (hdpend : (getObj h item.promise).status = .pending)
    (hsel : selectCb (getObj (setList h p items) p) item = some (.user f, w))
    (hplain : plainOn f w = true) :
    ∃ H1 : Heap,
      drain (n + 2) h p q = drain (n + 1) H1 p (q ++ [item.promise]) ∧
      H1.next = h.next ∧
      H1.log = h.log ++ [.ucall item.promise w] ∧
      H1.tasks = h.tasks ∧
      getObj H1 p = { getObj h p with list := items } ∧
      (∀ y, y ≠ p → y ≠ item.promise → getObj H1 y = getObj h y) ∧
      (getObj H1 item.promise).status ≠ .pending ∧
      (getObj H1 item.promise).list = (getObj h item.promise).list ∧
      (∀ wv, evalUser f w = .ok wv →
        (getObj H1 item.promise).status = .fulfilled ∧
        (getObj H1 item.promise).value = wv) ∧
      (∀ ev, evalUser f w = .error ev →
        (getObj H1 item.promise).status = .rejected ∧
        (getObj H1 item.promise).reason = ev) := by
  have hobj6 : getObj (pushLog (setList h p items) (.ucall item.promise w))
      item.promise = getObj h item.promise := by
    show getObj (setList h p items) item.promise = getObj h item.promise
    exact getObj_setList_ne hdp items
  have hpend6 : (getObj (pushLog (setList h p items) (.ucall item.promise w))
      item.promise).status = .pending := by
    rw [hobj6]; exact hdpend
  have hnext6 : (pushLog (setList h p items) (.ucall item.promise w)).next
      = h.next := rfl
  cases hev : evalUser f w with
  | ok wv =>
    have hplainv : isPlain wv = true := by
      unfold plainOn at hplain
      rw [hev] at hplain
      exact hplain
    refine ⟨setFulfilled (pushLog (setList h p items) (.ucall item.promise w))
      item.promise wv, ?_, rfl, rfl, rfl, ?_, ?_, ?_, ?_, ?_, ?_⟩
    · rw [drain_succ, hl]
      dsimp only
      rw [hsel]
      dsimp only
      rw [runCb_user, hev]
      dsimp only
      rw [resolvePromise_plain n _ _ _ hplainv hpend6]
    · rw [show getObj (setFulfilled (pushLog (setList h p items)
          (.ucall item.promise w)) item.promise wv) p
          = getObj (pushLog (setList h p items) (.ucall item.promise w)) p
        from getObj_setObj_ne (Ne.symm hdp) _]
      show getObj (setList h p items) p = _
      exact getObj_setList_self hplt items
    · intro y hyp hyd
      rw [show getObj (setFulfilled (pushLog (setList h p items)
          (.ucall item.promise w)) item.promise wv) y
          = getObj (pushLog (setList h p items) (.ucall item.promise w)) y
        from getObj_setObj_ne hyd _]
      show getObj (setList h p items) y = _
      exact getObj_setList_ne hyp items
    · rw [getObj_setFulfilled_self (by rw [hnext6]; exact hdlt) wv]
      exact fun hc => nomatch hc
    · rw [getObj_setFulfilled_self (by rw [hnext6]; exact hdlt) wv]
      show (getObj (pushLog (setList h p items) (.ucall item.promise w))
        item.promise).list = _
      rw [hobj6]
    · intro wv' hev'
      cases hev'
      rw [getObj_setFulfilled_self (by rw [hnext6]; exact hdlt) wv]
      exact ⟨rfl, rfl⟩
    · intro ev hev'
      cases hev'
  | error ev =>
    have hro : getObj (rejectPromise (pushLog (setList h p items)
        (.ucall item.promise w)) item.promise ev) item.promise
        = { getObj (pushLog (setList h p items) (.ucall item.promise w))
            item.promise with status := .rejected, reason := ev } :=
      getObj_rejectPromise_pending hpend6 (by rw [hnext6]; exact hdlt) ev
    have hrne : ∀ y, y ≠ item.promise →
        getObj (rejectPromise (pushLog (setList h p items)
          (.ucall item.promise w)) item.promise ev) y
        = getObj (pushLog (setList h p items) (.ucall item.promise w)) y := by
      intro y hy
      unfold rejectPromise
      rw [if_neg (by rw [hpend6]; exact fun hne => hne rfl)]
      exact getObj_setObj_ne hy _
    have hrheap : ∀ hh : Heap, hh = rejectPromise (pushLog (setList h p items)
        (.ucall item.promise w)) item.promise ev →
        hh.log = h.log ++ [.ucall item.promise w] ∧ hh.next = h.next ∧
        hh.tasks = h.tasks := by
      intro hh hhh
      subst hhh
      unfold rejectPromise
      rw [if_neg (by rw [hpend6]; exact fun hne => hne rfl)]
      exact ⟨rfl, rfl, rfl⟩
    obtain ⟨hlog, hnext, htasks⟩ := hrheap _ rfl
    refine ⟨rejectPromise (pushLog (setList h p items) (.ucall item.promise w))
      item.promise ev, ?_, hnext, hlog, htasks, ?_, ?_, ?_, ?_, ?_, ?_⟩
    · rw [drain_succ, hl]
      dsimp only
      rw [hsel]
      dsimp only
      rw [runCb_user, hev]
    · rw [hrne p (Ne.symm hdp)]
      show getObj (setList h p items) p = _
      exact getObj_setList_self hplt items
    · intro y hyp hyd
      rw [hrne y hyd]
      show getObj (setList h p items) y = _
      exact getObj_setList_ne hyp items
    · rw [hro]
      exact fun hc => nomatch hc
    · rw [hro]
      show (getObj (pushLog (setList h p items) (.ucall item.promise w))
        item.promise).list = _
      rw [hobj6]
    · intro wv hev'
      cases hev'
    · intro ev' hev'
      cases hev'
      rw [hro]
      exact ⟨rfl, rfl⟩

/-- Claim C8 (confirmed): three sequential `then` calls on the same pending
future register their reactions FIFO; when the future is later fulfilled
(respectively rejected), the three registered `onFulfilled` (respectively
`onRejected`) user callbacks are invoked in registration order — the final
log records exactly the three invocations, with the derived-promise ids
`1`, `2`, `3` in ascending registration order, each receiving the settled
value (respectively reason).  Quantified over arbitrary user callbacks whose
outcome is plain (return of a non-deferred value, or a throw) and arbitrary
companion callbacks in the other slot. -/
theorem c8_reactions_fifo :
    (∀ (f0 f1 f2 : UserFn) (g0 g1 g2 : Option Callback) (v : Val),
      isPlain v = true → plainOn f0 v = true → plainOn f1 v = true →
      plainOn f2 v = true →
      ∃ h', settleFulfilled 12 (c8Setup f0 f1 f2 g0 g1 g2) 0 v = .ok h' ∧
        userEvents h'.log = [.ucall 1 v, .ucall 2 v, .ucall 3 v]) ∧
    (∀ (f0 f1 f2 : UserFn) (g0 g1 g2 : Option Callback) (r : Val),
      plainOn f0 r = true → plainOn f1 r = true → plainOn f2 r = true →
      ∃ h', settleRejected 12 (c8SetupRej f0 f1 f2 g0 g1 g2) 0 r = .ok h' ∧
        userEvents h'.log = [.ucall 1 r, .ucall 2 r, .ucall 3 r]) := by
  constructor
  · intro f0 f1 f2 g0 g1 g2 v hv hp0 hp1 hp2
    set h3 := c8Setup f0 f1 f2 g0 g1 g2 with hh3
    set h4 := setFulfilled h3 0 v with hh4
    have hrun : settleFulfilled 12 h3 0 v = flush 12 h4 [0] := by
      unfold settleFulfilled
      rw [resolvePromise_plain 11 h3 0 v hv rfl]
    have hstep0 : flush 12 h4 [0] = drain 11 h4 0 [] := by
      rw [flush_cons, if_neg (fun hc => nomatch hc)]
    have hnext4 : h4.next = 4 := rfl
    obtain ⟨H1, A1, n1, l1, t1, o1, x1, s1, li1, okp1, erp1⟩ :=
      drain_step_user 9 h4 0 ⟨some (.user f0), g0, 1⟩ [⟨some (.user f1), g1, 2⟩,
        ⟨some (.user f2), g2, 3⟩] [] f0 v rfl
        (show (0:Nat) < h4.next by rw [hnext4]; omega)
        (show (1:Nat) ≠ 0 by decide)
        (show (1:Nat) < h4.next by rw [hnext4]; omega) rfl rfl hp0
    dsimp only at A1 l1 x1 s1 li1 okp1 erp1
    simp only [List.nil_append] at A1
    norm_num at A1
    obtain ⟨H2, A2, n2, l2, t2, o2, x2, s2, li2, okp2, erp2⟩ :=
      drain_step_user 8 H1 0 ⟨some (.user f1), g1, 2⟩ [⟨some (.user f2), g2, 3⟩]
        [1] f1 v (by rw [o1]) (by rw [n1, hnext4]; omega)
        (show (2:Nat) ≠ 0 by decide)
        (show (2:Nat) < H1.next by rw [n1, hnext4]; omega)
        (by show (getObj H1 2).status = .pending
            rw [x1 2 (by decide) (by decide)]
            rfl)
        (by show selectCb (getObj (setList H1 0 [⟨some (.user f2), g2, 3⟩]) 0)
              ⟨some (.user f1), g1, 2⟩ = some (.user f1, v)
            rw [getObj_setList_self (by rw [n1, hnext4]; omega), o1]
            rfl) hp1
    dsimp only at A2 l2 x2 s2 li2 okp2 erp2
    simp only [List.cons_append, List.nil_append] at A2
    norm_num at A2
    obtain ⟨H3, A3, n3, l3, t3, o3, x3, s3, li3, okp3, erp3⟩ :=
      drain_step_user 7 H2 0 ⟨some (.user f2), g2, 3⟩ [] [1, 2] f2 v
        (by rw [o2]) (by rw [n2, n1, hnext4]; omega)
        (show (3:Nat) ≠ 0 by decide)
        (show (3:Nat) < H2.next by rw [n2, n1, hnext4]; omega)
        (by show (getObj H2 3).status = .pending
            rw [x2 3 (by decide) (by decide), x1 3 (by decide) (by decide)]
            rfl)
        (by show selectCb (getObj (setList H2 0 []) 0)
              ⟨some (.user f2), g2, 3⟩ = some (.user f2, v)
            rw [getObj_setList_self (by rw [n2, n1, hnext4]; omega), o2, o1]
            rfl) hp2
    dsimp only at A3 l3 x3 s3 li3 okp3 erp3
    simp only [List.cons_append, List.nil_append] at A3
    norm_num at A3
    have htail : drain 8 H3 0 [1, 2, 3] = flush 7 H3 [1, 2, 3] := by
      rw [drain_succ]
      rw [show (getObj H3 0).list = [] from by rw [o3]]
    have hall : ∀ x ∈ [1, 2, 3], (getObj H3 x).status ≠ .pending ∧
        (getObj H3 x).list = [] := by
      intro x hx
      simp at hx
      rcases hx with rfl | rfl | rfl
      · constructor
        · rw [x3 1 (by decide) (by decide), x2 1 (by decide) (by decide)]
          exact s1
        · rw [x3 1 (by decide) (by decide), x2 1 (by decide) (by decide), li1]
          rfl
      · constructor
        · rw [x3 2 (by decide) (by decide)]
          exact s2
        · rw [x3 2 (by decide) (by decide), li2, x1 2 (by decide) (by decide)]
          rfl
      · constructor
        · exact s3
        · rw [li3, x2 3 (by decide) (by decide), x1 3 (by decide) (by decide)]
          rfl
    have hflush : flush 7 H3 [1, 2, 3] = .ok H3 :=
      flush_settled [1, 2, 3] 0 H3 hall
    refine ⟨H3, ?_, ?_⟩
    · rw [hrun, hstep0, A1, A2, A3, htail, hflush]
    · rw [l3, l2, l1]
      have h4log : h4.log = [.ecall 0, .ecall 1, .ecall 2, .ecall 3] := rfl
      rw [h4log]
      simp [userEvents]
  · intro f0 f1 f2 g0 g1 g2 r hp0 hp1 hp2
    set h3 := c8SetupRej f0 f1 f2 g0 g1 g2 with hh3
    set h4 := rejectPromise h3 0 r with hh4
    have hrun : settleRejected 12 h3 0 r = flush 12 h4 [0] := rfl
    have hstep0 : flush 12 h4 [0] = drain 11 h4 0 [] := by
      rw [flush_cons, if_neg (fun hc => nomatch hc)]
    have hnext4 : h4.next = 4 := rfl
    obtain ⟨H1, A1, n1, l1, t1, o1, x1, s1, li1, okp1, erp1⟩ :=
      drain_step_user 9 h4 0 ⟨g0, some (.user f0), 1⟩ [⟨g1, some (.user f1), 2⟩,
        ⟨g2, some (.user f2), 3⟩] [] f0 r rfl
        (show (0:Nat) < h4.next by rw [hnext4]; omega)
        (show (1:Nat) ≠ 0 by decide)
        (show (1:Nat) < h4.next by rw [hnext4]; omega) rfl rfl hp0
    dsimp only at A1 l1 x1 s1 li1 okp1 erp1
    simp only [List.nil_append] at A1
    norm_num at A1
    obtain ⟨H2, A2, n2, l2, t2, o2, x2, s2, li2, okp2, erp2⟩ :=
      drain_step_user 8 H1 0 ⟨g1, some (.user f1), 2⟩ [⟨g2, some (.user f2), 3⟩]
        [1] f1 r (by rw [o1]) (by rw [n1, hnext4]; omega)
        (show (2:Nat) ≠ 0 by decide)
        (show (2:Nat) < H1.next by rw [n1, hnext4]; omega)
        (by show (getObj H1 2).status = .pending
            rw [x1 2 (by decide) (by decide)]
            rfl)
        (by show selectCb (getObj (setList H1 0 [⟨g2, some (.user f2), 3⟩]) 0)
              ⟨g1, some (.user f1), 2⟩ = some (.user f1, r)
            rw [getObj_setList_self (by rw [n1, hnext4]; omega), o1]
            rfl) hp1
    dsimp only at A2 l2 x2 s2 li2 okp2 erp2
    simp only [List.cons_append, List.nil_append] at A2
    norm_num at A2
    obtain ⟨H3, A3, n3, l3, t3, o3, x3, s3, li3, okp3, erp3⟩ :=
      drain_step_user 7 H2 0 ⟨g2, some (.user f2), 3⟩ [] [1, 2] f2 r
        (by rw [o2]) (by rw [n2, n1, hnext4]; omega)
        (show (3:Nat) ≠ 0 by decide)
        (show (3:Nat) < H2.next by rw [n2, n1, hnext4]; omega)
        (by show (getObj H2 3).status = .pending
            rw [x2 3 (by decide) (by decide), x1 3 (by decide) (by decide)]
            rfl)
        (by show selectCb (getObj (setList H2 0 []) 0)
              ⟨g2, some (.user f2), 3⟩ = some (.user f2, r)
            rw [getObj_setList_self (by rw [n2, n1, hnext4]; omega), o2, o1]
            rfl) hp2
    dsimp only at A3 l3 x3 s3 li3 okp3 erp3
    simp only [List.cons_append, List.nil_append] at A3
    norm_num at A3
    have htail : drain 8 H3 0 [1, 2, 3] = flush 7 H3 [1, 2, 3] := by
      rw [drain_succ]
      rw [show (getObj H3 0).list = [] from by rw [o3]]
    have hall : ∀ x ∈ [1, 2, 3], (getObj H3 x).status ≠ .pending ∧
        (getObj H3 x).list = [] := by
      intro x hx
      simp at hx
      rcases hx with rfl | rfl | rfl
      · constructor
        · rw [x3 1 (by decide) (by decide), x2 1 (by decide) (by decide)]
          exact s1
        · rw [x3 1 (by decide) (by decide), x2 1 (by decide) (by decide), li1]
          rfl
      · constructor
        · rw [x3 2 (by decide) (by decide)]
          exact s2
        · rw [x3 2 (by decide) (by decide), li2, x1 2 (by decide) (by decide)]
          rfl
      · constructor
        · exact s3
        · rw [li3, x2 3 (by decide) (by decide), x1 3 (by decide) (by decide)]
          rfl
    have hflush : flush 7 H3 [1, 2, 3] = .ok H3 :=
      flush_settled [1, 2, 3] 0 H3 hall
    refine ⟨H3, ?_, ?_⟩
    · rw [hrun, hstep0, A1, A2, A3, htail, hflush]
    · rw [l3, l2, l1]
      have h4log : h4.log = [.ecall 0, .ecall 1, .ecall 2, .ecall 3] := rfl
      rw [h4log]
      simp [userEvents]

/-- Claim C8 (witness): three constant-returning callbacks on a promise
fulfilled with `7`. -/
theorem c8_reactions_fifo_witness :
    isPlain (.num 7) = true ∧ plainOn (.ret (.num 1)) (.num 7) = true ∧
    (∃ h', settleFulfilled 12
        (c8Setup (.ret (.num 1)) (.ret (.num 2)) (.ret (.num 3)) none none none)
        0 (.num 7) = .ok h' ∧
      userEvents h'.log =
        [.ucall 1 (.num 7), .ucall 2 (.num 7), .ucall 3 (.num 7)]) :=
  ⟨rfl, rfl,
   c8_reactions_fifo.1 (.ret (.num 1)) (.ret (.num 2)) (.ret (.num 3))
     none none none (.num 7) rfl rfl rfl rfl⟩

/-- Claim C9 (confirmed): an error raised by a registered `onFulfilled`
callback during flush is caught by the `try`/`catch` around the callback and
becomes the rejection reason of that reaction's derived future; the overall
settlement call still returns normally (result `.ok`, nothing propagates up
the stack of whoever triggered the flush), and the remaining reaction in the
flush worklist is still processed — its callback is invoked afterwards and
its derived future is settled too. -/
theorem c9_callback_errors_localized (e : Val) (f1 : UserFn) (v : Val)
    (hv : isPlain v = true) (hp1 : plainOn f1 v = true) :
    ∃ h', settleFulfilled 9 (c9Setup e f1) 0 v = .ok h' ∧
      (getObj h' 1).status = .rejected ∧ (getObj h' 1).reason = e ∧
      userEvents h'.log = [.ucall 1 v, .ucall 2 v] ∧
      (getObj h' 2).status ≠ .pending := by
  set h3 := c9Setup e f1 with hh3
  set h4 := setFulfilled h3 0 v with hh4
  have hrun : settleFulfilled 9 h3 0 v = flush 9 h4 [0] := by
    unfold settleFulfilled
    rw [resolvePromise_plain 8 h3 0 v hv rfl]
  have hstep0 : flush 9 h4 [0] = drain 8 h4 0 [] := by
    rw [flush_cons, if_neg (fun hc => nomatch hc)]
  have hnext4 : h4.next = 3 := rfl
  obtain ⟨H1, A1, n1, l1, t1, o1, x1, s1, li1, okp1, erp1⟩ :=
    drain_step_user 6 h4 0 ⟨some (.user (.thrw e)), none, 1⟩
      [⟨some (.user f1), none, 2⟩] [] (.thrw e) v rfl
      (show (0:Nat) < h4.next by rw [hnext4]; omega)
      (show (1:Nat) ≠ 0 by decide)
      (show (1:Nat) < h4.next by rw [hnext4]; omega) rfl rfl rfl
  dsimp only at A1 l1 x1 s1 li1 okp1 erp1
  simp only [List.nil_append] at A1
  norm_num at A1
  obtain ⟨H2, A2, n2, l2, t2, o2, x2, s2, li2, okp2, erp2⟩ :=
    drain_step_user 5 H1 0 ⟨some (.user f1), none, 2⟩ [] [1] f1 v
      (by rw [o1]) (by rw [n1, hnext4]; omega)
      (show (2:Nat) ≠ 0 by decide)
      (show (2:Nat) < H1.next by rw [n1, hnext4]; omega)
      (by show (getObj H1 2).status = .pending
          rw [x1 2 (by decide) (by decide)]
          rfl)
      (by show selectCb (getObj (setList H1 0 []) 0)
            ⟨some (.user f1), none, 2⟩ = some (.user f1, v)
          rw [getObj_setList_self (by rw [n1, hnext4]; omega), o1]
          rfl) hp1
  dsimp only at A2 l2 x2 s2 li2 okp2 erp2
  simp only [List.cons_append, List.nil_append] at A2
  norm_num at A2
  have htail : drain 6 H2 0 [1, 2] = flush 5 H2 [1, 2] := by
    rw [drain_succ]
    rw [show (getObj H2 0).list = [] from by rw [o2]]
  have hall : ∀ x ∈ [1, 2], (getObj H2 x).status ≠ .pending ∧
      (getObj H2 x).list = [] := by
    intro x hx
    simp at hx
    rcases hx with rfl | rfl
    · constructor
      · rw [x2 1 (by decide) (by decide)]
        exact s1
      · rw [x2 1 (by decide) (by decide), li1]
        rfl
    · constructor
      · exact s2
      · rw [li2, x1 2 (by decide) (by decide)]
        rfl
  have hflush : flush 5 H2 [1, 2] = .ok H2 :=
    flush_settled [1, 2] 0 H2 hall
  have hrej := erp1 e rfl
  refine ⟨H2, ?_, ?_, ?_, ?_, s2⟩
  · rw [hrun, hstep0, A1, A2, htail, hflush]
  · rw [x2 1 (by decide) (by decide)]
    exact hrej.1
  · rw [x2 1 (by decide) (by decide)]
    exact hrej.2
  · rw [l2, l1]
    have h4log : h4.log = [.ecall 0, .ecall 1, .ecall 2] := rfl
    rw [h4log]
    simp [userEvents]

/-- Claim C9 (witness): a throwing first callback and a constant second
callback on a promise fulfilled with `7`. -/
theorem c9_callback_errors_localized_witness :
    isPlain (.num 7) = true ∧ plainOn (.ret (.num 1)) (.num 7) = true ∧
    (∃ h', settleFulfilled 9 (c9Setup (.str "boom") (.ret (.num 1))) 0
        (.num 7) = .ok h' ∧
      (getObj h' 1).status = .rejected ∧ (getObj h' 1).reason = .str "boom" ∧
      userEvents h'.log = [.ucall 1 (.num 7), .ucall 2 (.num 7)] ∧
      (getObj h' 2).status ≠ .pending) :=
  ⟨rfl, rfl, c9_callback_errors_localized (.str "boom") (.ret (.num 1))
    (.num 7) rfl rfl⟩

theorem getObj_setCtx (h : Heap) (c : Nat) (x : AllCtx) (q : Nat) :
    getObj (setCtx h c x) q = getObj h q := rfl

theorem getCtx_setCtx_self (h : Heap) (c : Nat) (x : AllCtx) :
    getCtx (setCtx h c x) c = x := by
  simp [getCtx, setCtx]

theorem getCtx_setObj (h : Heap) (i : Nat) (o : PromiseObj) (c : Nat) :
    getCtx (setObj h i o) c = getCtx h c := rfl

theorem ctxs_rejectPromise (h : Heap) (p : Nat) (r : Val) (c : Nat) :
    getCtx (rejectPromise h p r) c = getCtx h c := by
  unfold rejectPromise
  split <;> rfl

theorem next_rejectPromise (h : Heap) (p : Nat) (r : Val) :
    (rejectPromise h p r).next = h.next := by
  unfold rejectPromise
  split <;> rfl

theorem getObj_rejectPromise_ne {h : Heap} {p q : Nat} (hne : q ≠ p) (r : Val) :
    getObj (rejectPromise h p r) q = getObj h q := by
  unfold rejectPromise
  split
  · rfl
  · exact getObj_setObj_ne hne _

theorem getObj_setFulfilled_ne {h : Heap} {p q : Nat} (hne : q ≠ p) (v : Val) :
    getObj (setFulfilled h p v) q = getObj h q :=
  getObj_setObj_ne hne _

theorem doneIdx_append (done : List SettleEv) (ev : SettleEv) :
    doneIdx (done ++ [ev]) = doneIdx done ++ [ev.idx] := by
  simp [doneIdx]

theorem fulCount_append_ful (done : List SettleEv) (ev : SettleEv)
    (hb : ev.isFul = true) : fulCount (done ++ [ev]) = fulCount done + 1 := by
  simp [fulCount, List.filter_append, hb]

theorem fulCount_append_rej (done : List SettleEv) (ev : SettleEv)
    (hb : ev.isFul = false) : fulCount (done ++ [ev]) = fulCount done := by
  simp [fulCount, List.filter_append, hb]

theorem firstFail_append_ful (done : List SettleEv) (ev : SettleEv)
    (hb : ev.isFul = true) : firstFail (done ++ [ev]) = firstFail done := by
  simp [firstFail, List.find?_append, hb]

theorem firstFail_append_rej (done : List SettleEv) (ev : SettleEv)
    (hb : ev.isFul = false) (hnone : firstFail done = none) :
    firstFail (done ++ [ev]) = some ev.pay := by
  simp only [firstFail, List.find?_append]
  simp only [firstFail] at hnone
  cases hf : done.find? fun ev => !ev.isFul with
  | none => simp [hf, hb]
  | some x => simp [hf] at hnone

theorem firstFail_append_fail (done : List SettleEv) (ev : SettleEv) (r : Val)
    (hsome : firstFail done = some r) :
    firstFail (done ++ [ev]) = some r := by
  simp only [firstFail, List.find?_append]
  simp only [firstFail] at hsome
  cases hf : done.find? fun ev => !ev.isFul with
  | none => simp [hf] at hsome
  | some x => simp [hf]; simpa [hf] using hsome

theorem lookupPay_append_rej (done : List SettleEv) (ev : SettleEv) (i : Nat)
    (hb : ev.isFul = false) :
    lookupPay (done ++ [ev]) i = lookupPay done i := by
  simp [lookupPay, List.filter_append, hb]

theorem lookupPay_append_ful_self (done : List SettleEv) (ev : SettleEv)
    (hb : ev.isFul = true) (hnotin : ev.idx ∉ doneIdx done) :
    lookupPay (done ++ [ev]) ev.idx = some ev.pay := by
  simp only [lookupPay, List.filter_append, hb, List.filter_cons]
  rw [List.find?_append]
  have hfind : (done.filter fun e => e.isFul).find? (fun e => e.idx == ev.idx)
      = none := by
    rw [List.find?_eq_none]
    intro x hx hbeq
    apply hnotin
    have hxdone : x ∈ done := List.mem_of_mem_filter hx
    have : x.idx = ev.idx := by simpa using hbeq
    rw [show ev.idx = x.idx from this.symm]
    exact List.mem_map_of_mem SettleEv.idx hxdone
  simp [hfind]

theorem lookupPay_append_ful_other (done : List SettleEv) (ev : SettleEv)
    (i : Nat) (hne : i ≠ ev.idx) :
    lookupPay (done ++ [ev]) i = lookupPay done i := by
  simp only [lookupPay, List.filter_append]
  rw [List.find?_append]
  cases hf : (done.filter fun e => e.isFul).find? (fun e => e.idx == i) with
  | some x => simp [hf]
  | none =>
    simp only [hf, Option.none_or]
    cases hb : ev.isFul <;> simp [List.find?, Ne.symm hne, hb, List.filter]

/-- `then` on a pending receiver: no flush task is scheduled; the record is
appended and the fresh derived promise is returned. -/
theorem thenFn_pending (h : Heap) (me : Nat) (onFul onRej : Option Callback)
    (hs : (getObj h me).status = .pending) (hlt : me ≠ h.next) :
    (thenFn h me onFul onRej).1 =
      setObj (newPromise h).1 me
        { getObj h me with
          list := (getObj h me).list ++ [⟨onFul, onRej, h.next⟩] } := by
  have hobj : getObj (newPromise h).1 me = getObj h me := by
    rw [getObj_newPromise, if_neg hlt]
  show (if (getObj (newPromise h).1 me).status ≠ Status.pending
      then pushTask (setObj (newPromise h).1 me
        { getObj (newPromise h).1 me with
          list := (getObj (newPromise h).1 me).list
            ++ [⟨onFul, onRej, (newPromise h).2⟩] }) me
      else setObj (newPromise h).1 me
        { getObj (newPromise h).1 me with
          list := (getObj (newPromise h).1 me).list
            ++ [⟨onFul, onRej, (newPromise h).2⟩] }) = _
  rw [hobj, if_neg (by rw [hs]; exact fun hne => hne rfl)]
  rfl

/-- Heap shape reached by the registration loop of `Promise.all` over the
still-to-process inputs `k, k+1, …, n-1`, given that the dummies of the first
`k` inputs are already allocated. -/
theorem allLoop_range_facts (m : Nat) : ∀ (k n : Nat) (h : Heap),
    m + k = n →
    h.next = n + 1 + k →
    (∀ i, i < n → (getObj h i).status = .pending) →
    (allLoop h 0 (List.range' k m) k).next = h.next + m ∧
    (∀ c, getCtx (allLoop h 0 (List.range' k m) k) c = getCtx h c) ∧
    (allLoop h 0 (List.range' k m) k).tasks = h.tasks ∧
    (∀ q, q < h.next → (q < k ∨ n ≤ q) →
      getObj (allLoop h 0 (List.range' k m) k) q = getObj h q) ∧
    (∀ i, k ≤ i → i < n →
      getObj (allLoop h 0 (List.range' k m) k) i =
        { getObj h i with list := (getObj h i).list ++
            [⟨some (.allFul 0 i), some (.allRej 0 i), n + 1 + i⟩] }) ∧
    (∀ q, h.next ≤ q → getObj (allLoop h 0 (List.range' k m) k) q
      = pendingObj) := by
  induction m with
  | zero =>
    intro k n h hkn hnext hpend
    refine ⟨rfl, fun c => rfl, rfl, fun q _ _ => rfl, ?_, ?_⟩
    · intro i hki hin
      omega
    · intro q hq
      show getObj h q = pendingObj
      unfold getObj
      rw [if_neg (by omega)]
  | succ m ihm =>
    intro k n h hkn hnext hpend
    have hkn' : k < n := by omega
    have hrange : List.range' k (m + 1) = k :: List.range' (k + 1) m := rfl
    have hstep : allLoop h 0 (List.range' k (m + 1)) k =
        allLoop (thenFn h k (some (.allFul 0 k)) (some (.allRej 0 k))).1 0
          (List.range' (k + 1) m) (k + 1) := by
      rw [hrange]
      rfl
    set h' := (thenFn h k (some (.allFul 0 k)) (some (.allRej 0 k))).1 with hh'
    have hkey : h' = setObj (newPromise h).1 k
        { getObj h k with
          list := (getObj h k).list ++
            [⟨some (.allFul 0 k), some (.allRej 0 k), h.next⟩] } :=
      thenFn_pending h k _ _ (hpend k hkn') (by omega)
    have hnext' : h'.next = h.next + 1 := by rw [hkey]; rfl
    have hctx' : ∀ c, getCtx h' c = getCtx h c := by
      intro c
      rw [hkey]
      rfl
    have htasks' : h'.tasks = h.tasks := by rw [hkey]; rfl
    have hobjk : getObj h' k =
        { getObj h k with
          list := (getObj h k).list ++
            [⟨some (.allFul 0 k), some (.allRej 0 k), n + 1 + k⟩] } := by
      rw [hkey, getObj_setObj_self (show k < (newPromise h).1.next by
        show k < h.next + 1
        omega), ← hnext]
    have hobj_ne : ∀ q, q ≠ k → q < h.next → getObj h' q = getObj h q := by
      intro q hqk hqlt
      rw [hkey, getObj_setObj_ne hqk, getObj_newPromise, if_neg (by omega)]
    have hobj_top : getObj h' h.next = pendingObj := by
      rw [hkey, getObj_setObj_ne (by omega), getObj_newPromise, if_pos rfl]
    have hobj_beyond : ∀ q, h.next + 1 ≤ q → getObj h' q = pendingObj := by
      intro q hq
      rw [hkey]
      unfold getObj
      rw [if_neg (by show ¬ q < (newPromise h).1.next; show ¬ q < h.next + 1; omega)]
    have hpend' : ∀ i, i < n → (getObj h' i).status = .pending := by
      intro i hin
      by_cases hik : i = k
      · subst hik
        rw [hobjk]
        exact hpend i hin
      · rw [hobj_ne i hik (by omega)]
        exact hpend i hin
    obtain ⟨ih1, ih2, ih3, ih4, ih5, ih6⟩ := ihm (k + 1) n h' (by omega)
      (by rw [hnext']; omega) hpend'
    rw [hstep]
    refine ⟨?_, ?_, ?_, ?_, ?_, ?_⟩
    · rw [ih1, hnext']
      omega
    · intro c
      rw [ih2 c, hctx' c]
    · rw [ih3, htasks']
    · intro q hq hor
      have hqk : q ≠ k := by omega
      rw [ih4 q (by omega) (by omega), hobj_ne q hqk hq]
    · intro i hki hin
      by_cases hik : i = k
      · subst hik
        rw [ih4 i (by omega) (by omega), hobjk]
      · have : k + 1 ≤ i := by omega
        rw [ih5 i this hin, hobj_ne i hik (by omega)]
    · intro q hq
      by_cases hqt : q = h.next
      · subst hqt
        rw [ih4 h.next (by omega) (by omega), hobj_top]
      · rw [ih6 q (by omega)]

theorem getCtx_setList (h : Heap) (p : Nat) (l : List Reaction) (c : Nat) :
    getCtx (setList h p l) c = getCtx h c := rfl

theorem getCtx_setFulfilled (h : Heap) (p : Nat) (v : Val) (c : Nat) :
    getCtx (setFulfilled h p v) c = getCtx h c := rfl

theorem next_setList (h : Heap) (p : Nat) (l : List Reaction) :
    (setList h p l).next = h.next := rfl

theorem next_setFulfilled (h : Heap) (p : Nat) (v : Val) :
    (setFulfilled h p v).next = h.next := rfl

theorem next_setCtx (h : Heap) (c : Nat) (x : AllCtx) :
    (setCtx h c x).next = h.next := rfl

/-- A nodup set of input indices below `n` avoiding one index `i < n` leaves
the fulfilled-counter strictly below `n`, and likewise the total count. -/
theorem c4_count_lt {n : Nat} {done : List SettleEv} {i : Nat} (hi : i < n)
    (hfresh : i ∉ doneIdx done) (hlt : ∀ e ∈ done, e.idx < n)
    (hnodup : (doneIdx done).Nodup) : fulCount done < n := by
  have hsub : (doneIdx done).toFinset ⊆ (Finset.range n).erase i := by
    intro x hx
    rw [List.mem_toFinset] at hx
    rw [Finset.mem_erase, Finset.mem_range]
    constructor
    · intro hxe
      subst hxe
      exact hfresh hx
    · obtain ⟨e, he, hex⟩ := List.mem_map.mp hx
      rw [← hex]
      exact hlt e he
  have hcard : (doneIdx done).toFinset.card ≤ n - 1 := by
    have := Finset.card_le_card hsub
    rwa [Finset.card_erase_of_mem (Finset.mem_range.mpr hi),
      Finset.card_range] at this
  have hlen : (doneIdx done).length ≤ n - 1 := by
    rwa [← List.toFinset_card_of_nodup hnodup]
  have hdl : done.length ≤ n - 1 := by
    have : (doneIdx done).length = done.length := by simp [doneIdx]
    omega
  have hfc : fulCount done ≤ done.length := List.length_filter_le _ _
  omega

/-- Generic `flush` drain step over a reaction whose selected callback
returns normally with `undefined` (the shape of the adoption and
`Promise.all` closures): the derived promise, still pending afterwards, is
fulfilled with `undefined` and appended to the worklist. -/
theorem drain_step_cb (m : Nat) (h : Heap) (p : Nat) (item : Reaction)
    (items : List Reaction) (q : List Nat) (cb : Callback) (w : Val) (h6 : Heap)
    (hl : (getObj h p).list = item :: items)
    (hsel : selectCb (getObj (setList h p items) p) item = some (cb, w))
    (hcb : runCb (m + 1) (setList h p items) item.promise cb w = .ok h6 .undef)
    (hd6 : (getObj h6 item.promise).status = .pending) :
    drain (m + 2) h p q =
      drain (m + 1) (setFulfilled h6 item.promise .undef) p
        (q ++ [item.promise]) := by
  rw [drain_succ, hl]
  dsimp only
  rw [hsel]
  dsimp only
  rw [hcb]
  dsimp only
  rw [resolvePromise_plain m h6 item.promise Val.undef rfl hd6]

/-- Re-assemble the `Promise.all` invariant after one settlement event, given
the facts established about the post-event heap. -/
theorem c4_reestablish (n : Nat) (done : List SettleEv) (ev : SettleEv)
    (h h7 : Heap) (hidx : ev.idx < n) (hfresh : ev.idx ∉ doneIdx done)
    (hinv : C4Inv n done h)
    (h7next : h7.next = 2 * n + 1)
    (hothers : ∀ q, q ≠ ev.idx → q ≠ n + 1 + ev.idx → q ≠ n →
      getObj h7 q = getObj h q)
    (hi7 : (getObj h7 ev.idx).status ≠ .pending ∧ (getObj h7 ev.idx).list = [])
    (hd7 : (getObj h7 (n + 1 + ev.idx)).status ≠ .pending ∧
      (getObj h7 (n + 1 + ev.idx)).list = [])
    (hctx_len : (getCtx h7 0).len = n)
    (hctx_res : (getCtx h7 0).result = n)
    (hctx_cnt : (getCtx h7 0).counter = fulCount (done ++ [ev]))
    (hctx_vals : ∀ j, j < n → (getCtx h7 0).values j = lookupPay (done ++ [ev]) j)
    (hreslist7 : (getObj h7 n).list = [])
    (hspec7 : c4ResultSpec n (done ++ [ev]) h7) :
    C4Inv n (done ++ [ev]) h7 := by
  obtain ⟨Hnext, Hlen, Hres, Hcnt, Hvals, Hinp, Hinps, Hdum, Hdums, Hreslist,
    Hspec⟩ := hinv
  refine ⟨h7next, hctx_len, hctx_res, hctx_cnt, hctx_vals, ?_, ?_, ?_, ?_,
    hreslist7, hspec7⟩
  · intro j hj hnotin
    rw [doneIdx_append] at hnotin
    have hj1 : j ∉ doneIdx done := fun hc => hnotin (by simp [hc])
    have hj2 : j ≠ ev.idx := fun hc => hnotin (by simp [hc])
    rw [hothers j hj2 (by omega) (by omega)]
    exact Hinp j hj hj1
  · intro j hj hin
    rw [doneIdx_append] at hin
    rcases List.mem_append.mp hin with hin1 | hin2
    · have hj2 : j ≠ ev.idx := by
        intro hc
        subst hc
        exact hfresh hin1
      rw [hothers j hj2 (by omega) (by omega)]
      exact Hinps j hj hin1
    · have hj2 : j = ev.idx := by simpa using hin2
      subst hj2
      exact hi7
  · intro j hj hnotin
    rw [doneIdx_append] at hnotin
    have hj1 : j ∉ doneIdx done := fun hc => hnotin (by simp [hc])
    have hj2 : j ≠ ev.idx := fun hc => hnotin (by simp [hc])
    rw [hothers (n + 1 + j) (by omega) (by omega) (by omega)]
    exact Hdum j hj hj1
  · intro j hj hin
    rw [doneIdx_append] at hin
    rcases List.mem_append.mp hin with hin1 | hin2
    · have hj2 : j ≠ ev.idx := by
        intro hc
        subst hc
        exact hfresh hin1
      rw [hothers (n + 1 + j) (by omega) (by omega) (by omega)]
      exact Hdums j hj hin1
    · have hj2 : j = ev.idx := by simpa using hin2
      subst hj2
      exact hd7

/-- One rejection event against the `Promise.all` scenario: the input is
rejected, its registered `onRejected` closure runs, the aggregate result is
rejected with this reason if it was still pending (first rejection wins) and
is left untouched otherwise, and the invariant is re-established. -/
theorem c4_step_rej (n : Nat) (done : List SettleEv) (h : Heap)
    (hinv : C4Inv n done h) (i : Nat) (pay : Val)
    (hidx : i < n) (hfresh : i ∉ doneIdx done)
    (hdone_lt : ∀ e ∈ done, e.idx < n)
    (hdone_nodup : (doneIdx done).Nodup) :
    ∃ h', settleRejected 12 h i pay = .ok h' ∧
      C4Inv n (done ++ [⟨i, pay, false⟩]) h' := by
  obtain ⟨Hnext, Hlen, Hres, Hcnt, Hvals, Hinp, Hinps, Hdum, Hdums, Hreslist,
    Hspec⟩ := hinv
  have hinv' : C4Inv n done h := ⟨Hnext, Hlen, Hres, Hcnt, Hvals, Hinp, Hinps,
    Hdum, Hdums, Hreslist, Hspec⟩
  have hobji := Hinp i hidx hfresh
  have hpendi : (getObj h i).status = .pending := by rw [hobji]
  have hilt : i < h.next := by omega
  have hobjd := Hdum i hidx hfresh
  set h4 := rejectPromise h i pay with hh4
  have g4i : getObj h4 i = { getObj h i with status := .rejected, reason := pay } :=
    getObj_rejectPromise_pending hpendi hilt pay
  have g4ne : ∀ q, q ≠ i → getObj h4 q = getObj h q :=
    fun q hq => getObj_rejectPromise_ne hq pay
  have hnext4 : h4.next = h.next := next_rejectPromise h i pay
  have hst4 : (getObj h4 i).status = .rejected := by rw [g4i]
  have hl4 : (getObj h4 i).list =
      [⟨some (.allFul 0 i), some (.allRej 0 i), n + 1 + i⟩] := by
    rw [g4i, hobji]
  have e1 : settleRejected 12 h i pay = flush 12 h4 [i] := rfl
  have e2 : flush 12 h4 [i] = drain 11 h4 i [] := by
    rw [flush_cons, if_neg (by rw [hst4]; exact fun hc => nomatch hc)]
  have hsel : selectCb (getObj (setList h4 i []) i)
      ⟨some (.allFul 0 i), some (.allRej 0 i), n + 1 + i⟩ =
      some (.allRej 0 i, pay) := by
    rw [getObj_setList_self (by rw [hnext4]; omega), g4i, hobji]
    rfl
  have hctx5 : getCtx (setList h4 i []) 0 = getCtx h 0 := by
    rw [getCtx_setList]
    rw [hh4]
    exact ctxs_rejectPromise h i pay 0
  have hres5eq : getObj (setList h4 i []) n = getObj h n := by
    rw [getObj_setList_ne (by omega), g4ne n (by omega)]
  have hreslt5 : n < (setList h4 i []).next := by
    rw [next_setList, hnext4]
    omega
  have hd5 : getObj (setList h4 i []) (n + 1 + i) = pendingObj := by
    rw [getObj_setList_ne (by omega), g4ne _ (by omega)]
    exact hobjd
  have hcnt_lt : fulCount done < n := c4_count_lt hidx hfresh hdone_lt hdone_nodup
  -- the h6 reached after the allRej closure: reject the result if pending
  cases hff : firstFail done with
  | none =>
    have hresp : (getObj h n).status = .pending := by
      unfold c4ResultSpec at Hspec
      rw [hff, if_neg (by omega)] at Hspec
      exact Hspec
    have hres5 : (getObj (setList h4 i []) n).status = .pending := by
      rw [hres5eq]
      exact hresp
    set h6 := rejectPromise (setList h4 i []) n pay with hh6
    have g6n : getObj h6 n =
        { getObj (setList h4 i []) n with status := .rejected, reason := pay } :=
      getObj_rejectPromise_pending hres5 hreslt5 pay
    have g6ne : ∀ q, q ≠ n → getObj h6 q = getObj (setList h4 i []) q :=
      fun q hq => getObj_rejectPromise_ne hq pay
    have hnext6 : h6.next = h.next := by
      rw [hh6, next_rejectPromise, next_setList, hnext4]
    have hcb : runCb 10 (setList h4 i []) (n + 1 + i) (.allRej 0 i) pay =
        .ok h6 .undef := by
      rw [runCb_allRej, hctx5, Hres]
      have hf : flush 9 h6 [n] = .ok h6 := by
        rw [flush_cons, if_neg (by rw [g6n]; exact fun hc => nomatch hc)]
        rw [drain_succ,
          show (getObj h6 n).list = [] from by rw [g6n, hres5eq]; exact Hreslist]
        rw [flush_nil]
      rw [hh6] at hf ⊢
      rw [hf]
    have hd6 : (getObj h6 (n + 1 + i)).status = .pending := by
      rw [g6ne _ (by omega), hd5]
      rfl
    have e3 : drain 11 h4 i [] =
        drain 10 (setFulfilled h6 (n + 1 + i) .undef) i ([] ++ [n + 1 + i]) :=
      drain_step_cb 9 h4 i ⟨some (.allFul 0 i), some (.allRej 0 i), n + 1 + i⟩
        [] [] (.allRej 0 i) pay h6 hl4 hsel hcb hd6
    set h7 := setFulfilled h6 (n + 1 + i) .undef with hh7
    have g7ne : ∀ q, q ≠ n + 1 + i → getObj h7 q = getObj h6 q :=
      fun q hq => getObj_setFulfilled_ne hq _
    have hd7 : getObj h7 (n + 1 + i) =
        { getObj h6 (n + 1 + i) with status := .fulfilled, value := .undef } := by
      rw [hh7]
      exact getObj_setFulfilled_self (by rw [hnext6]; omega) _
    have hd6full : getObj h6 (n + 1 + i) = pendingObj := by
      rw [g6ne _ (by omega), hd5]
    have hl7i : (getObj h7 i).list = [] := by
      rw [g7ne i (by omega), g6ne i (by omega),
        getObj_setList_self (by rw [hnext4]; omega)]
    have e4 : drain 10 h7 i ([] ++ [n + 1 + i]) = flush 9 h7 [n + 1 + i] := by
      rw [List.nil_append, drain_succ, hl7i]
    have e5 : flush 9 h7 [n + 1 + i] = .ok h7 := by
      have := flush_settled [n + 1 + i] 6 h7 (by
        intro x hx
        simp at hx
        subst hx
        rw [hd7, hd6full]
        exact ⟨(fun hc => nomatch hc), rfl⟩)
      simpa using this
    refine ⟨h7, by rw [e1, e2, e3, e4, e5], ?_⟩
    refine c4_reestablish n done ⟨i, pay, false⟩ h h7 hidx hfresh hinv'
      ?_ ?_ ?_ ?_ ?_ ?_ ?_ ?_ ?_ ?_
    · rw [hh7, next_setFulfilled, hnext6, Hnext]
    · intro q hqi hqd hqn
      rw [g7ne q hqd, g6ne q hqn, getObj_setList_ne hqi, g4ne q hqi]
    · constructor
      · rw [g7ne i (by omega), g6ne i (by omega),
          getObj_setList_self (by rw [hnext4]; omega)]
        rw [g4i]
        exact fun hc => nomatch hc
      · exact hl7i
    · rw [hd7, hd6full]
      exact ⟨(fun hc => nomatch hc), rfl⟩
    · show (getCtx h7 0).len = n
      rw [hh7, getCtx_setFulfilled, hh6, ctxs_rejectPromise, hctx5]
      exact Hlen
    · rw [hh7, getCtx_setFulfilled, hh6, ctxs_rejectPromise, hctx5]
      exact Hres
    · rw [hh7, getCtx_setFulfilled, hh6, ctxs_rejectPromise, hctx5, Hcnt]
      rw [fulCount_append_rej done ⟨i, pay, false⟩ rfl]
    · intro j hj
      rw [hh7, getCtx_setFulfilled, hh6, ctxs_rejectPromise, hctx5]
      rw [Hvals j hj, lookupPay_append_rej done ⟨i, pay, false⟩ j rfl]
    · rw [g7ne n (by omega), g6n, hres5eq]
      exact Hreslist
    · unfold c4ResultSpec
      rw [firstFail_append_rej done ⟨i, pay, false⟩ rfl hff]
      rw [g7ne n (by omega), g6n]
      exact ⟨rfl, rfl⟩
  | some r =>
    have hresp : (getObj h n).status = .rejected ∧ (getObj h n).reason = r := by
      unfold c4ResultSpec at Hspec
      rw [hff] at Hspec
      exact Hspec
    have hres5st : (getObj (setList h4 i []) n).status ≠ .pending := by
      rw [hres5eq, hresp.1]
      exact fun hc => nomatch hc
    have h6eq : rejectPromise (setList h4 i []) n pay = setList h4 i [] :=
      rejectPromise_settled hres5st pay
    have hcb : runCb 10 (setList h4 i []) (n + 1 + i) (.allRej 0 i) pay =
        .ok (setList h4 i []) .undef := by
      rw [runCb_allRej, hctx5, Hres, h6eq]
      have hf : flush 9 (setList h4 i []) [n] = .ok (setList h4 i []) := by
        rw [flush_cons, if_neg (by rw [hres5eq, hresp.1]; exact fun hc => nomatch hc)]
        rw [drain_succ, show (getObj (setList h4 i []) n).list = [] from by
          rw [hres5eq]; exact Hreslist]
        rw [flush_nil]
      rw [hf]
    have hd6 : (getObj (setList h4 i []) (n + 1 + i)).status = .pending := by
      rw [hd5]
      rfl
    have e3 : drain 11 h4 i [] =
        drain 10 (setFulfilled (setList h4 i []) (n + 1 + i) .undef) i
          ([] ++ [n + 1 + i]) :=
      drain_step_cb 9 h4 i ⟨some (.allFul 0 i), some (.allRej 0 i), n + 1 + i⟩
        [] [] (.allRej 0 i) pay (setList h4 i []) hl4 hsel hcb hd6
    set h7 := setFulfilled (setList h4 i []) (n + 1 + i) .undef with hh7
    have g7ne : ∀ q, q ≠ n + 1 + i → getObj h7 q = getObj (setList h4 i []) q :=
      fun q hq => getObj_setFulfilled_ne hq _
    have hd7 : getObj h7 (n + 1 + i) =
        { getObj (setList h4 i []) (n + 1 + i) with
          status := .fulfilled, value := .undef } := by
      rw [hh7]
      exact getObj_setFulfilled_self (by rw [next_setList, hnext4]; omega) _
    have hl7i : (getObj h7 i).list = [] := by
      rw [g7ne i (by omega), getObj_setList_self (by rw [hnext4]; omega)]
    have e4 : drain 10 h7 i ([] ++ [n + 1 + i]) = flush 9 h7 [n + 1 + i] := by
      rw [List.nil_append, drain_succ, hl7i]
    have e5 : flush 9 h7 [n + 1 + i] = .ok h7 := by
      have := flush_settled [n + 1 + i] 6 h7 (by
        intro x hx
        simp at hx
        subst hx
        rw [hd7, hd5]
        exact ⟨(fun hc => nomatch hc), rfl⟩)
      simpa using this
    refine ⟨h7, by rw [e1, e2, e3, e4, e5], ?_⟩
    refine c4_reestablish n done ⟨i, pay, false⟩ h h7 hidx hfresh hinv'
      ?_ ?_ ?_ ?_ ?_ ?_ ?_ ?_ ?_ ?_
    · rw [hh7, next_setFulfilled, next_setList, hnext4, Hnext]
    · intro q hqi hqd _
      rw [g7ne q hqd, getObj_setList_ne hqi, g4ne q hqi]
    · constructor
      · rw [g7ne i (by omega), getObj_setList_self (by rw [hnext4]; omega)]
        rw [g4i]
        exact fun hc => nomatch hc
      · exact hl7i
    · rw [hd7, hd5]
      exact ⟨(fun hc => nomatch hc), rfl⟩
    · rw [hh7, getCtx_setFulfilled, hctx5]
      exact Hlen
    · rw [hh7, getCtx_setFulfilled, hctx5]
      exact Hres
    · rw [hh7, getCtx_setFulfilled, hctx5, Hcnt,
        fulCount_append_rej done ⟨i, pay, false⟩ rfl]
    · intro j hj
      rw [hh7, getCtx_setFulfilled, hctx5, Hvals j hj,
        lookupPay_append_rej done ⟨i, pay, false⟩ j rfl]
    · rw [g7ne n (by omega), hres5eq]
      exact Hreslist
    · unfold c4ResultSpec
      rw [firstFail_append_fail done ⟨i, pay, false⟩ r hff]
      rw [g7ne n (by omega), hres5eq]
      exact hresp

theorem allBump_len (h : Heap) (c i : Nat) (p : Val) :
    (allBump h c i p).len = (getCtx h c).len := rfl

theorem allBump_result (h : Heap) (c i : Nat) (p : Val) :
    (allBump h c i p).result = (getCtx h c).result := rfl

theorem allBump_counter (h : Heap) (c i : Nat) (p : Val) :
    (allBump h c i p).counter = (getCtx h c).counter + 1 := rfl

theorem allBump_values (h : Heap) (c i : Nat) (p : Val) (j : Nat) :
    (allBump h c i p).values j =
      if j = i then some p else (getCtx h c).values j := rfl

/-- One fulfillment event against the `Promise.all` scenario: the input is
fulfilled, its registered `onFulfilled` closure stores the value at its index
and bumps the counter; when the counter reaches the input count the aggregate
result is resolved with the index-ordered value array (unless an earlier
rejection already settled it); the invariant is re-established. -/
theorem c4_step_ful (n : Nat) (done : List SettleEv) (h : Heap)
    (hinv : C4Inv n done h) (i : Nat) (pay : Val)
    (hidx : i < n) (hfresh : i ∉ doneIdx done)
    (hdone_lt : ∀ e ∈ done, e.idx < n)
    (hdone_nodup : (doneIdx done).Nodup)
    (hplain : isPlain pay = true) :
    ∃ h', settleFulfilled 12 h i pay = .ok h' ∧
      C4Inv n (done ++ [⟨i, pay, true⟩]) h' := by
  obtain ⟨Hnext, Hlen, Hres, Hcnt, Hvals, Hinp, Hinps, Hdum, Hdums, Hreslist,
    Hspec⟩ := hinv
  have hinv' : C4Inv n done h := ⟨Hnext, Hlen, Hres, Hcnt, Hvals, Hinp, Hinps,
    Hdum, Hdums, Hreslist, Hspec⟩
  have hobji := Hinp i hidx hfresh
  have hpendi : (getObj h i).status = .pending := by rw [hobji]
  have hilt : i < h.next := by omega
  have hobjd := Hdum i hidx hfresh
  have hcnt_lt : fulCount done < n := c4_count_lt hidx hfresh hdone_lt hdone_nodup
  set h4 := setFulfilled h i pay with hh4
  have g4i : getObj h4 i = { getObj h i with status := .fulfilled, value := pay } := by
    rw [hh4]
    exact getObj_setFulfilled_self hilt pay
  have g4ne : ∀ q, q ≠ i → getObj h4 q = getObj h q :=
    fun q hq => getObj_setFulfilled_ne hq pay
  have hnext4 : h4.next = h.next := rfl
  have hst4 : (getObj h4 i).status = .fulfilled := by rw [g4i]
  have hl4 : (getObj h4 i).list =
      [⟨some (.allFul 0 i), some (.allRej 0 i), n + 1 + i⟩] := by
    rw [g4i, hobji]
  have e1 : settleFulfilled 12 h i pay = flush 12 h4 [i] := by
    unfold settleFulfilled
    rw [resolvePromise_plain 11 h i pay hplain hpendi]
  have e2 : flush 12 h4 [i] = drain 11 h4 i [] := by
    rw [flush_cons, if_neg (by rw [hst4]; exact fun hc => nomatch hc)]
  have hsel : selectCb (getObj (setList h4 i []) i)
      ⟨some (.allFul 0 i), some (.allRej 0 i), n + 1 + i⟩ =
      some (.allFul 0 i, pay) := by
    rw [getObj_setList_self (by rw [hnext4]; omega), g4i, hobji]
    rfl
  have hctx5 : getCtx (setList h4 i []) 0 = getCtx h 0 := rfl
  have hres5eq : getObj (setList h4 i []) n = getObj h n := by
    rw [getObj_setList_ne (by omega), g4ne n (by omega)]
  have hd5 : getObj (setList h4 i []) (n + 1 + i) = pendingObj := by
    rw [getObj_setList_ne (by omega), g4ne _ (by omega)]
    exact hobjd
  set ctxB := allBump (setList h4 i []) 0 i pay with hctxB
  have hctxB_len : ctxB.len = n := by
    rw [hctxB, allBump_len, hctx5]
    exact Hlen
  have hctxB_res : ctxB.result = n := by
    rw [hctxB, allBump_result, hctx5]
    exact Hres
  have hctxB_cnt : ctxB.counter = fulCount done + 1 := by
    rw [hctxB, allBump_counter, hctx5, Hcnt]
  have hctxB_vals : ∀ j, j < n →
      ctxB.values j = lookupPay (done ++ [⟨i, pay, true⟩]) j := by
    intro j hj
    rw [hctxB, allBump_values, hctx5]
    by_cases hji : j = i
    · subst hji
      rw [if_pos rfl]
      exact (lookupPay_append_ful_self done ⟨j, pay, true⟩ rfl hfresh).symm
    · rw [if_neg hji, Hvals j hj]
      exact (lookupPay_append_ful_other done ⟨i, pay, true⟩ j hji).symm
  by_cases hfin : fulCount done + 1 = n
  · -- the counter reaches the input count
    cases hff : firstFail done with
    | none =>
      have hresp : (getObj h n).status = .pending := by
        unfold c4ResultSpec at Hspec
        rw [hff, if_neg (by omega)] at Hspec
        exact Hspec
      set h6 := setCtx (setList h4 i []) 0 ctxB with hh6
      have g6 : ∀ q, getObj h6 q = getObj (setList h4 i []) q := fun q => rfl
      have hpend6n : (getObj h6 n).status = .pending := by
        rw [g6 n, hres5eq]
        exact hresp
      set h6f := setFulfilled h6 n (.arr (ctxValues ctxB)) with hh6f
      have g6f : getObj h6f n =
          { getObj h6 n with status := .fulfilled, value := .arr (ctxValues ctxB) } := by
        rw [hh6f]
        exact getObj_setFulfilled_self (by
          show n < (setList h4 i []).next
          rw [next_setList, hnext4]
          omega) _
      have g6fne : ∀ q, q ≠ n → getObj h6f q = getObj h6 q :=
        fun q hq => getObj_setFulfilled_ne hq _
      have hcb : runCb 10 (setList h4 i []) (n + 1 + i) (.allFul 0 i) pay =
          .ok h6f .undef := by
        rw [runCb_allFul, hctx5, Hcnt, Hlen, if_pos hfin, Hres]
        rw [← hctxB, ← hh6]
        rw [resolvePromise_plain 8 h6 n (.arr (ctxValues ctxB)) rfl hpend6n,
          ← hh6f]
        have hf : flush 9 h6f [n] = .ok h6f := by
          rw [flush_cons, if_neg (by rw [g6f]; exact fun hc => nomatch hc)]
          rw [drain_succ, show (getObj h6f n).list = [] from by
            rw [g6f, g6 n, hres5eq]; exact Hreslist]
          rw [flush_nil]
        show (match flush 9 h6f [n] with
          | Res.ok h3 => CbRes.ok h3 Val.undef
          | Res.thrown e h3 => CbRes.thrown e h3
          | Res.timeout h3 => CbRes.timeout h3) = CbRes.ok h6f Val.undef
        rw [hf]
      have hd6f : (getObj h6f (n + 1 + i)).status = .pending := by
        rw [g6fne _ (by omega), g6 _, hd5]
        rfl
      have e3 : drain 11 h4 i [] =
          drain 10 (setFulfilled h6f (n + 1 + i) .undef) i ([] ++ [n + 1 + i]) :=
        drain_step_cb 9 h4 i ⟨some (.allFul 0 i), some (.allRej 0 i), n + 1 + i⟩
          [] [] (.allFul 0 i) pay h6f hl4 hsel hcb hd6f
      set h7 := setFulfilled h6f (n + 1 + i) .undef with hh7
      have g7ne : ∀ q, q ≠ n + 1 + i → getObj h7 q = getObj h6f q :=
        fun q hq => getObj_setFulfilled_ne hq _
      have hd7 : getObj h7 (n + 1 + i) =
          { getObj h6f (n + 1 + i) with status := .fulfilled, value := .undef } := by
        rw [hh7]
        exact getObj_setFulfilled_self (by
          show n + 1 + i < (setList h4 i []).next
          rw [next_setList, hnext4]
          omega) _
      have hd6full : getObj h6f (n + 1 + i) = pendingObj := by
        rw [g6fne _ (by omega), g6 _, hd5]
      have hl7i : (getObj h7 i).list = [] := by
        rw [g7ne i (by omega), g6fne i (by omega), g6 i,
          getObj_setList_self (by rw [hnext4]; omega)]
      have e4 : drain 10 h7 i ([] ++ [n + 1 + i]) = flush 9 h7 [n + 1 + i] := by
        rw [List.nil_append, drain_succ, hl7i]
      have e5 : flush 9 h7 [n + 1 + i] = .ok h7 := by
        have := flush_settled [n + 1 + i] 6 h7 (by
          intro x hx
          simp at hx
          subst hx
          rw [hd7, hd6full]
          exact ⟨(fun hc => nomatch hc), rfl⟩)
        simpa using this
      have hres7 : getObj h7 n = getObj h6f n := g7ne n (by omega)
      have hvalue : Val.arr (ctxValues ctxB) =
          allValues n (done ++ [⟨i, pay, true⟩]) := by
        unfold allValues ctxValues
        rw [hctxB_len]
        congr 1
        apply List.map_congr_left
        intro j hj
        rw [hctxB_vals j (List.mem_range.mp hj)]
      refine ⟨h7, by rw [e1, e2, e3, e4, e5], ?_⟩
      refine c4_reestablish n done ⟨i, pay, true⟩ h h7 hidx hfresh hinv'
        ?_ ?_ ?_ ?_ ?_ ?_ ?_ ?_ ?_ ?_
      · rw [hh7, next_setFulfilled, hh6f, next_setFulfilled, hh6, next_setCtx,
          next_setList, hnext4, Hnext]
      · intro q hqi hqd hqn
        rw [g7ne q hqd, g6fne q hqn, g6 q, getObj_setList_ne hqi, g4ne q hqi]
      · constructor
        · rw [g7ne i (by omega), g6fne i (by omega), g6 i,
            getObj_setList_self (by rw [hnext4]; omega), g4i]
          exact fun hc => nomatch hc
        · exact hl7i
      · rw [hd7, hd6full]
        exact ⟨(fun hc => nomatch hc), rfl⟩
      · rw [show getCtx h7 0 = ctxB from by
          rw [hh7, getCtx_setFulfilled, hh6f, getCtx_setFulfilled, hh6]
          exact getCtx_setCtx_self _ 0 ctxB]
        exact hctxB_len
      · rw [show getCtx h7 0 = ctxB from by
          rw [hh7, getCtx_setFulfilled, hh6f, getCtx_setFulfilled, hh6]
          exact getCtx_setCtx_self _ 0 ctxB]
        exact hctxB_res
      · rw [show getCtx h7 0 = ctxB from by
          rw [hh7, getCtx_setFulfilled, hh6f, getCtx_setFulfilled, hh6]
          exact getCtx_setCtx_self _ 0 ctxB]
        rw [hctxB_cnt, fulCount_append_ful done ⟨i, pay, true⟩ rfl]
      · intro j hj
        rw [show getCtx h7 0 = ctxB from by
          rw [hh7, getCtx_setFulfilled, hh6f, getCtx_setFulfilled, hh6]
          exact getCtx_setCtx_self _ 0 ctxB]
        exact hctxB_vals j hj
      · rw [hres7, g6f]
        show (getObj h6 n).list = []
        rw [g6 n, hres5eq]
        exact Hreslist
      · unfold c4ResultSpec
        rw [firstFail_append_ful done ⟨i, pay, true⟩ rfl, hff]
        rw [if_pos (by rw [fulCount_append_ful done ⟨i, pay, true⟩ rfl]; omega)]
        rw [hres7, g6f, hvalue]
        exact ⟨rfl, rfl⟩
    | some r =>
      have hresp : (getObj h n).status = .rejected ∧ (getObj h n).reason = r := by
        unfold c4ResultSpec at Hspec
        rw [hff] at Hspec
        exact Hspec
      set h6 := setCtx (setList h4 i []) 0 ctxB with hh6
      have g6 : ∀ q, getObj h6 q = getObj (setList h4 i []) q := fun q => rfl
      have hst6n : (getObj h6 n).status ≠ .pending := by
        rw [g6 n, hres5eq, hresp.1]
        exact fun hc => nomatch hc
      have hcb : runCb 10 (setList h4 i []) (n + 1 + i) (.allFul 0 i) pay =
          .ok h6 .undef := by
        rw [runCb_allFul, hctx5, Hcnt, Hlen, if_pos hfin, Hres]
        rw [← hctxB, ← hh6]
        rw [resolvePromise_settled 8 h6 n (.arr (ctxValues ctxB)) hst6n]
        have hf : flush 9 h6 [n] = .ok h6 := by
          have hc1 : ¬ ((getObj h6 n).status = .pending) := hst6n
          rw [flush_cons, if_neg hc1]
          rw [drain_succ, show (getObj h6 n).list = [] from by
            rw [g6 n, hres5eq]
            exact Hreslist]
          rw [flush_nil]
        show (match flush 9 h6 [n] with
          | Res.ok h3 => CbRes.ok h3 Val.undef
          | Res.thrown e h3 => CbRes.thrown e h3
          | Res.timeout h3 => CbRes.timeout h3) = CbRes.ok h6 Val.undef
        rw [hf]
      have hd6 : (getObj h6 (n + 1 + i)).status = .pending := by
        rw [g6 _, hd5]
        rfl
      have e3 : drain 11 h4 i [] =
          drain 10 (setFulfilled h6 (n + 1 + i) .undef) i ([] ++ [n + 1 + i]) :=
        drain_step_cb 9 h4 i ⟨some (.allFul 0 i), some (.allRej 0 i), n + 1 + i⟩
          [] [] (.allFul 0 i) pay h6 hl4 hsel hcb hd6
      set h7 := setFulfilled h6 (n + 1 + i) .undef with hh7
      have g7ne : ∀ q, q ≠ n + 1 + i → getObj h7 q = getObj h6 q :=
        fun q hq => getObj_setFulfilled_ne hq _
      have hd7 : getObj h7 (n + 1 + i) =
          { getObj h6 (n + 1 + i) with status := .fulfilled, value := .undef } := by
        rw [hh7]
        exact getObj_setFulfilled_self (by
          show n + 1 + i < (setList h4 i []).next
          rw [next_setList, hnext4]
          omega) _
      have hd6full : getObj h6 (n + 1 + i) = pendingObj := by
        rw [g6 _, hd5]
      have hl7i : (getObj h7 i).list = [] := by
        rw [g7ne i (by omega), g6 i, getObj_setList_self (by rw [hnext4]; omega)]
      have e4 : drain 10 h7 i ([] ++ [n + 1 + i]) = flush 9 h7 [n + 1 + i] := by
        rw [List.nil_append, drain_succ, hl7i]
      have e5 : flush 9 h7 [n + 1 + i] = .ok h7 := by
        have := flush_settled [n + 1 + i] 6 h7 (by
          intro x hx
          simp at hx
          subst hx
          rw [hd7, hd6full]
          exact ⟨(fun hc => nomatch hc), rfl⟩)
        simpa using this
      refine ⟨h7, by rw [e1, e2, e3, e4, e5], ?_⟩
      refine c4_reestablish n done ⟨i, pay, true⟩ h h7 hidx hfresh hinv'
        ?_ ?_ ?_ ?_ ?_ ?_ ?_ ?_ ?_ ?_
      · rw [hh7, next_setFulfilled, hh6, next_setCtx, next_setList, hnext4, Hnext]
      · intro q hqi hqd hqn
        rw [g7ne q hqd, g6 q, getObj_setList_ne hqi, g4ne q hqi]
      · constructor
        · rw [g7ne i (by omega), g6 i,
            getObj_setList_self (by rw [hnext4]; omega), g4i]
          exact fun hc => nomatch hc
        · exact hl7i
      · rw [hd7, hd6full]
        exact ⟨(fun hc => nomatch hc), rfl⟩
      · rw [show getCtx h7 0 = ctxB from by
          rw [hh7, getCtx_setFulfilled, hh6]
          exact getCtx_setCtx_self _ 0 ctxB]
        exact hctxB_len
      · rw [show getCtx h7 0 = ctxB from by
          rw [hh7, getCtx_setFulfilled, hh6]
          exact getCtx_setCtx_self _ 0 ctxB]
        exact hctxB_res
      · rw [show getCtx h7 0 = ctxB from by
          rw [hh7, getCtx_setFulfilled, hh6]
          exact getCtx_setCtx_self _ 0 ctxB]
        rw [hctxB_cnt, fulCount_append_ful done ⟨i, pay, true⟩ rfl]
      · intro j hj
        rw [show getCtx h7 0 = ctxB from by
          rw [hh7, getCtx_setFulfilled, hh6]
          exact getCtx_setCtx_self _ 0 ctxB]
        exact hctxB_vals j hj
      · rw [g7ne n (by omega), g6 n, hres5eq]
        exact Hreslist
      · unfold c4ResultSpec
        rw [firstFail_append_fail done ⟨i, pay, true⟩ r hff]
        rw [g7ne n (by omega), g6 n, hres5eq]
        exact hresp
  · -- the counter has not yet reached the input count
    set h6 := setCtx (setList h4 i []) 0 ctxB with hh6
    have g6 : ∀ q, getObj h6 q = getObj (setList h4 i []) q := fun q => rfl
    have hcb : runCb 10 (setList h4 i []) (n + 1 + i) (.allFul 0 i) pay =
        .ok h6 .undef := by
      rw [runCb_allFul, hctx5, Hcnt, Hlen, if_neg hfin]
    have hd6 : (getObj h6 (n + 1 + i)).status = .pending := by
      rw [g6 _, hd5]
      rfl
    have e3 : drain 11 h4 i [] =
        drain 10 (setFulfilled h6 (n + 1 + i) .undef) i ([] ++ [n + 1 + i]) :=
      drain_step_cb 9 h4 i ⟨some (.allFul 0 i), some (.allRej 0 i), n + 1 + i⟩
        [] [] (.allFul 0 i) pay h6 hl4 hsel hcb hd6
    set h7 := setFulfilled h6 (n + 1 + i) .undef with hh7
    have g7ne : ∀ q, q ≠ n + 1 + i → getObj h7 q = getObj h6 q :=
      fun q hq => getObj_setFulfilled_ne hq _
    have hd7 : getObj h7 (n + 1 + i) =
        { getObj h6 (n + 1 + i) with status := .fulfilled, value := .undef } := by
      rw [hh7]
      exact getObj_setFulfilled_self (by
        show n + 1 + i < (setList h4 i []).next
        rw [next_setList, hnext4]
        omega) _
    have hd6full : getObj h6 (n + 1 + i) = pendingObj := by
      rw [g6 _, hd5]
    have hl7i : (getObj h7 i).list = [] := by
      rw [g7ne i (by omega), g6 i, getObj_setList_self (by rw [hnext4]; omega)]
    have e4 : drain 10 h7 i ([] ++ [n + 1 + i]) = flush 9 h7 [n + 1 + i] := by
      rw [List.nil_append, drain_succ, hl7i]
    have e5 : flush 9 h7 [n + 1 + i] = .ok h7 := by
      have := flush_settled [n + 1 + i] 6 h7 (by
        intro x hx
        simp at hx
        subst hx
        rw [hd7, hd6full]
        exact ⟨(fun hc => nomatch hc), rfl⟩)
      simpa using this
    refine ⟨h7, by rw [e1, e2, e3, e4, e5], ?_⟩
    refine c4_reestablish n done ⟨i, pay, true⟩ h h7 hidx hfresh hinv'
      ?_ ?_ ?_ ?_ ?_ ?_ ?_ ?_ ?_ ?_
    · rw [hh7, next_setFulfilled, hh6, next_setCtx, next_setList, hnext4, Hnext]
    · intro q hqi hqd _
      rw [g7ne q hqd, g6 q, getObj_setList_ne hqi, g4ne q hqi]
    · constructor
      · rw [g7ne i (by omega), g6 i,
          getObj_setList_self (by rw [hnext4]; omega), g4i]
        exact fun hc => nomatch hc
      · exact hl7i
    · rw [hd7, hd6full]
      exact ⟨(fun hc => nomatch hc), rfl⟩
    · rw [show getCtx h7 0 = ctxB from by
        rw [hh7, getCtx_setFulfilled, hh6]
        exact getCtx_setCtx_self _ 0 ctxB]
      exact hctxB_len
    · rw [show getCtx h7 0 = ctxB from by
        rw [hh7, getCtx_setFulfilled, hh6]
        exact getCtx_setCtx_self _ 0 ctxB]
      exact hctxB_res
    · rw [show getCtx h7 0 = ctxB from by
        rw [hh7, getCtx_setFulfilled, hh6]
        exact getCtx_setCtx_self _ 0 ctxB]
      rw [hctxB_cnt, fulCount_append_ful done ⟨i, pay, true⟩ rfl]
    · intro j hj
      rw [show getCtx h7 0 = ctxB from by
        rw [hh7, getCtx_setFulfilled, hh6]
        exact getCtx_setCtx_self _ 0 ctxB]
      exact hctxB_vals j hj
    · rw [g7ne n (by omega), g6 n, hres5eq]
      exact Hreslist
    · unfold c4ResultSpec
      rw [firstFail_append_ful done ⟨i, pay, true⟩ rfl]
      have hres7 : getObj h7 n = getObj h n := by
        rw [g7ne n (by omega), g6 n, hres5eq]
      cases hff : firstFail done with
      | some r =>
        unfold c4ResultSpec at Hspec
        rw [hff] at Hspec
        rw [hres7]
        exact Hspec
      | none =>
        unfold c4ResultSpec at Hspec
        rw [hff, if_neg (by omega)] at Hspec
        rw [if_neg (by rw [fulCount_append_ful done ⟨i, pay, true⟩ rfl]; omega)]
        rw [hres7]
        exact Hspec

/-- After registration alone, the `Promise.all` scenario satisfies the
invariant with no events processed, and the result promise has id `n`. -/
theorem c4_base (n : Nat) (hn : 0 < n) :
    (promiseAll (mkPending n) (List.range n)).2 = n ∧
    C4Inv n [] (promiseAll (mkPending n) (List.range n)).1 := by
  refine ⟨rfl, ?_⟩
  have hP : (promiseAll (mkPending n) (List.range n)).1 =
      allLoop (c4Start n) 0 (List.range n) 0 := rfl
  rw [hP, List.range_eq_range']
  have hgets : ∀ q, getObj (c4Start n) q = pendingObj := by
    intro q
    unfold getObj c4Start
    dsimp only
    split
    · split <;> rfl
    · rfl
  obtain ⟨F1, F2, F3, F4, F5, F6⟩ := allLoop_range_facts n 0 n (c4Start n)
    rfl rfl (fun i _ => by rw [hgets i]; rfl)
  have hctx0 : getCtx (c4Start n) 0 = c4Ctx n := rfl
  refine ⟨?_, ?_, ?_, ?_, ?_, ?_, ?_, ?_, ?_, ?_, ?_⟩
  · rw [F1]
    show n + 1 + n = 2 * n + 1
    omega
  · rw [F2 0, hctx0]
    exact List.length_range n
  · rw [F2 0, hctx0]
    rfl
  · rw [F2 0, hctx0]
    rfl
  · intro i _
    rw [F2 0, hctx0]
    rfl
  · intro i hi _
    rw [F5 i (Nat.zero_le i) hi, hgets i]
    rfl
  · intro i _ hmem
    exact absurd hmem (List.not_mem_nil i)
  · intro i _ _
    exact F6 (n + 1 + i) (by show n + 1 ≤ n + 1 + i; omega)
  · intro i _ hmem
    exact absurd hmem (List.not_mem_nil i)
  · rw [F4 n (by show n < n + 1; omega) (Or.inr (le_refl n)), hgets n]
    rfl
  · show if fulCount ([] : List SettleEv) = n then
        (getObj (allLoop (c4Start n) 0 (List.range' 0 n) 0) n).status = .fulfilled ∧
        (getObj (allLoop (c4Start n) 0 (List.range' 0 n) 0) n).value =
          allValues n []
      else (getObj (allLoop (c4Start n) 0 (List.range' 0 n) 0) n).status = .pending
    rw [if_neg (by simp [fulCount]; omega)]
    rw [F4 n (by show n < n + 1; omega) (Or.inr (le_refl n)), hgets n]
    rfl

/-- Processing any admissible sequence of settlement events preserves the
`Promise.all` invariant, event by event, and never raises. -/
theorem c4_run (n : Nat) : ∀ (es done : List SettleEv) (h : Heap),
    C4Inv n done h →
    (∀ e ∈ done, e.idx < n) →
    (∀ e ∈ es, e.idx < n) →
    (∀ e ∈ es, e.isFul = true → isPlain e.pay = true) →
    (doneIdx (done ++ es)).Nodup →
    ∃ h', runEvents 12 h es = .ok h' ∧ C4Inv n (done ++ es) h' := by
  intro es
  induction es with
  | nil =>
    intro done h hinv _ _ _ _
    exact ⟨h, rfl, by rw [List.append_nil]; exact hinv⟩
  | cons ev rest ih =>
    intro done h hinv hdlt hlt hplain hnd
    obtain ⟨ei, ep, ef⟩ := ev
    have hvi : ei < n := hlt ⟨ei, ep, ef⟩ (List.mem_cons_self _ _)
    have hnd' : (doneIdx done ++ ei :: doneIdx rest).Nodup := by
      have hexp : doneIdx (done ++ ⟨ei, ep, ef⟩ :: rest) =
          doneIdx done ++ ei :: doneIdx rest := by
        unfold doneIdx
        rw [List.map_append]
        rfl
      rw [hexp] at hnd
      exact hnd
    obtain ⟨hdnd, hcnd, hdisj⟩ := List.nodup_append.mp hnd'
    have hfresh : ei ∉ doneIdx done :=
      fun hmem => hdisj hmem (List.mem_cons_self _ _)
    have hdlt' : ∀ e ∈ done ++ [(⟨ei, ep, ef⟩ : SettleEv)], e.idx < n := by
      intro e he
      rcases List.mem_append.mp he with h1 | h1
      · exact hdlt e h1
      · rw [List.mem_singleton.mp h1]
        exact hvi
    have hlt' : ∀ e ∈ rest, e.idx < n :=
      fun e he => hlt e (List.mem_cons_of_mem _ he)
    have hplain' : ∀ e ∈ rest, e.isFul = true → isPlain e.pay = true :=
      fun e he => hplain e (List.mem_cons_of_mem _ he)
    have hnd2 : (doneIdx ((done ++ [(⟨ei, ep, ef⟩ : SettleEv)]) ++ rest)).Nodup := by
      rw [List.append_assoc]
      exact hnd
    cases ef with
    | true =>
      have hplainev : isPlain ep = true :=
        hplain ⟨ei, ep, true⟩ (List.mem_cons_self _ _) rfl
      obtain ⟨h1, e1, hinv1⟩ :=
        c4_step_ful n done h hinv ei ep hvi hfresh hdlt hdnd hplainev
      obtain ⟨h2, e2, hinv2⟩ :=
        ih (done ++ [⟨ei, ep, true⟩]) h1 hinv1 hdlt' hlt' hplain' hnd2
      refine ⟨h2, ?_, ?_⟩
      · have hstep : runEvents 12 h (⟨ei, ep, true⟩ :: rest) =
            (match settleFulfilled 12 h ei ep with
             | Res.ok h3 => runEvents 12 h3 rest
             | r => r) := rfl
        rw [hstep, e1]
        exact e2
      · rw [List.append_assoc] at hinv2
        exact hinv2
    | false =>
      obtain ⟨h1, e1, hinv1⟩ :=
        c4_step_rej n done h hinv ei ep hvi hfresh hdlt hdnd
      obtain ⟨h2, e2, hinv2⟩ :=
        ih (done ++ [⟨ei, ep, false⟩]) h1 hinv1 hdlt' hlt' hplain' hnd2
      refine ⟨h2, ?_, ?_⟩
      · have hstep : runEvents 12 h (⟨ei, ep, false⟩ :: rest) =
            (match settleRejected 12 h ei ep with
             | Res.ok h3 => runEvents 12 h3 rest
             | r => r) := rfl
        rw [hstep, e1]
        exact e2
      · rw [List.append_assoc] at hinv2
        exact hinv2

theorem firstFail_all_ful (es : List SettleEv)
    (h : ∀ e ∈ es, e.isFul = true) : firstFail es = none := by
  unfold firstFail
  have hfind : es.find? (fun e => !e.isFul) = none :=
    List.find?_eq_none.mpr (fun e he => by rw [h e he]; decide)
  rw [hfind]
  rfl

theorem fulCount_all_ful (es : List SettleEv)
    (h : ∀ e ∈ es, e.isFul = true) : fulCount es = es.length := by
  unfold fulCount
  rw [List.filter_eq_self.mpr h]

/-- C4: `Promise.all` over a non-empty family of pending inputs returns a
future that, as the inputs settle in any order (each at most once, fulfilled
with plain values), fulfills with the sequence of input values placed at the
same index positions as their inputs once every input has fulfilled, and
rejects with the first rejection reason observed, ignoring all subsequently
arriving fulfillments or further rejections from the other inputs. -/
theorem c4_all_combinator (n : Nat) (es : List SettleEv) (hn : 0 < n)
    (hlt : ∀ e ∈ es, e.idx < n)
    (hplain : ∀ e ∈ es, e.isFul = true → isPlain e.pay = true)
    (hnd : (doneIdx es).Nodup) :
    ∃ h', runEvents 12 (promiseAll (mkPending n) (List.range n)).1 es = .ok h' ∧
      ((∀ e ∈ es, e.isFul = true) → es.length = n →
        (getObj h' n).status = .fulfilled ∧
        (getObj h' n).value = allValues n es) ∧
      (∀ r, firstFail es = some r →
        (getObj h' n).status = .rejected ∧ (getObj h' n).reason = r) := by
  obtain ⟨hres, hinv0⟩ := c4_base n hn
  obtain ⟨h', he, hinv⟩ := c4_run n es []
    (promiseAll (mkPending n) (List.range n)).1 hinv0
    (fun e hmem => absurd hmem (List.not_mem_nil e)) hlt hplain hnd
  rw [List.nil_append] at hinv
  obtain ⟨-, -, -, -, -, -, -, -, -, -, hspec⟩ := hinv
  refine ⟨h', he, ?_, ?_⟩
  · intro hall hlen
    unfold c4ResultSpec at hspec
    rw [firstFail_all_ful es hall] at hspec
    rw [if_pos (by rw [fulCount_all_ful es hall]; exact hlen)] at hspec
    exact hspec
  · intro r hr
    unfold c4ResultSpec at hspec
    rw [hr] at hspec
    exact hspec

theorem c4_all_combinator_witness :
    ((0 < 2 ∧
      (∀ e ∈ ([⟨1, .num 20, true⟩, ⟨0, .num 10, true⟩] : List SettleEv),
        e.idx < 2) ∧
      (∀ e ∈ ([⟨1, .num 20, true⟩, ⟨0, .num 10, true⟩] : List SettleEv),
        e.isFul = true → isPlain e.pay = true) ∧
      (doneIdx [⟨1, .num 20, true⟩, ⟨0, .num 10, true⟩]).Nodup) ∧
    ∃ h', runEvents 12 (promiseAll (mkPending 2) (List.range 2)).1
        [⟨1, .num 20, true⟩, ⟨0, .num 10, true⟩] = .ok h' ∧
      ((∀ e ∈ ([⟨1, .num 20, true⟩, ⟨0, .num 10, true⟩] : List SettleEv),
          e.isFul = true) →
        ([⟨1, .num 20, true⟩, ⟨0, .num 10, true⟩] : List SettleEv).length = 2 →
        (getObj h' 2).status = .fulfilled ∧
        (getObj h' 2).value = allValues 2 [⟨1, .num 20, true⟩, ⟨0, .num 10, true⟩]) ∧
      (∀ r, firstFail [⟨1, .num 20, true⟩, ⟨0, .num 10, true⟩] = some r →
        (getObj h' 2).status = .rejected ∧ (getObj h' 2).reason = r)) :=
  ⟨⟨by decide, by decide, by decide, by decide⟩,
    c4_all_combinator 2 [⟨1, .num 20, true⟩, ⟨0, .num 10, true⟩]
      (by decide) (by decide) (by decide) (by decide)⟩
